import Mathlib

/-!
Verification development for the pyBinSim real-time binaural synthesis engine.

The frequency-domain convolver (`src/pybinsim/convolver.py`, class
`ConvolverFFTW`) is embedded as a state machine over idealized real/complex
arithmetic: numpy `float32`/`complex64` arrays become functions `ℕ → ℝ` /
`ℕ → ℂ` (meaningful on the index range of the corresponding array, total for
convenience), and the pyfftw `rfft`/`irfft` plans become the discrete Fourier
transform they compute.  The sound handler, configuration parser and audio
callback (`soundhandler.py`, `application.py`) are embedded over `ℚ` since no
transcendental arithmetic occurs there.
-/

namespace PyBinSim

noncomputable section

/-- The complex exponential `exp(2πi·m/n)` used by the DFT. -/
def cexp2pi (n : ℕ) (m : ℤ) : ℂ :=
  Complex.exp (2 * Real.pi * Complex.I * m / n)

/-- Forward real FFT of length `n` as computed by `pyfftw.builders.rfft` /
`numpy.fft.rfft`: bin `k` is `∑_j x[j]·exp(-2πi·jk/n)`.  Only bins
`k ≤ n/2` are stored by the library. -/
def rfft (n : ℕ) (x : ℕ → ℝ) (k : ℕ) : ℂ :=
  ∑ j ∈ Finset.range n, (x j : ℂ) * cexp2pi n (-((j : ℤ) * k))

/-- Hermitian extension of a half spectrum of length `n/2 + 1` to a full
spectrum of length `n`, as assumed by `irfft`. -/
def hermExt (n : ℕ) (X : ℕ → ℂ) (k : ℕ) : ℂ :=
  if k ≤ n / 2 then X k else (starRingEnd ℂ) (X (n - k))

/-- Inverse real FFT with output length `n` as computed by
`pyfftw.builders.irfft` / `numpy.fft.irfft`: the real part of the inverse
DFT (with `1/n` normalization) of the Hermitian extension of the input. -/
def irfft (n : ℕ) (X : ℕ → ℂ) (m : ℕ) : ℝ :=
  ((∑ k ∈ Finset.range n, hermExt n X k * cexp2pi n ((k : ℤ) * m)) / n).re

/-- Model of `numpy.roll(x, shift)` on an array of length `n`:
`out[i] = x[(i - shift) mod n]`. -/
def nroll {α : Type} (n : ℕ) (shift : ℤ) (x : ℕ → α) (i : ℕ) : α :=
  x ((((i : ℤ) - shift) % (n : ℤ)).toNat)

/-- State of a `ConvolverFFTW` instance (`convolver.py`).  Arrays are
functions; `block_size` and `IR_blocks` are the fields of the same name.
The `processStereo` flag is not stored: it is fixed at construction and
selects between the `process`/`processSt` entry points below. -/
structure Conv where
  block_size : ℕ
  IR_blocks : ℕ
  buffer : ℕ → ℝ
  buffer2 : ℕ → ℝ
  TF_left_blocked : ℕ → ℕ → ℂ
  TF_right_blocked : ℕ → ℕ → ℂ
  TF_left_blocked_previous : ℕ → ℕ → ℂ
  TF_right_blocked_previous : ℕ → ℕ → ℂ
  FDL_left : ℕ → ℂ
  FDL_right : ℕ → ℂ
  resultLeftFreq : ℕ → ℂ
  resultRightFreq : ℕ → ℂ
  resultLeftFreqPrevious : ℕ → ℂ
  resultRightFreqPrevious : ℕ → ℂ
  processCounter : ℕ
  interpolate : Bool

/-- `ConvolverFFTW.__init__(ir_size, block_size, ·)`: all buffers, filter
spectra, FDLs and accumulators start at zero, `IR_blocks = ir_size //
block_size`, counter 0, `interpolate` false. -/
def initState (ir_size block_size : ℕ) : Conv where
  block_size := block_size
  IR_blocks := ir_size / block_size
  buffer := fun _ => 0
  buffer2 := fun _ => 0
  TF_left_blocked := fun _ _ => 0
  TF_right_blocked := fun _ _ => 0
  TF_left_blocked_previous := fun _ _ => 0
  TF_right_blocked_previous := fun _ _ => 0
  FDL_left := fun _ => 0
  FDL_right := fun _ => 0
  resultLeftFreq := fun _ => 0
  resultRightFreq := fun _ => 0
  resultLeftFreqPrevious := fun _ => 0
  resultRightFreqPrevious := fun _ => 0
  processCounter := 0
  interpolate := false

/-- `self.filter_fftw_plan`: length-`2B` real FFT of a length-`B` filter
block zero-padded (the plan is created with `n = block_size * 2`). -/
def transformBlock (B : ℕ) (g : ℕ → ℝ) : ℕ → ℂ :=
  rfft (2 * B) (fun j => if j < B then g j else 0)

/-- `ConvolverFFTW.transform_filter`: overwrite both current filter spectra
with fresh zero arrays and fill blocks `0 ≤ i < IR_blocks` with the
transformed time-domain blocks of the handed-over filter. -/
def transform_filter (s : Conv) (hl hr : ℕ → ℕ → ℝ) : Conv :=
  { s with
    TF_left_blocked := fun i k =>
      if i < s.IR_blocks then transformBlock s.block_size (hl i) k else 0
    TF_right_blocked := fun i k =>
      if i < s.IR_blocks then transformBlock s.block_size (hr i) k else 0 }

/-- `ConvolverFFTW.setIR`: save the current spectra into the `previous`
slots, transform and install the new filter, set `interpolate`. -/
def setIR (s : Conv) (hl hr : ℕ → ℕ → ℝ) (do_interpolation : Bool) : Conv :=
  { transform_filter
      { s with
        TF_left_blocked_previous := s.TF_left_blocked
        TF_right_blocked_previous := s.TF_right_blocked } hl hr with
    interpolate := do_interpolation }

/-- `ConvolverFFTW.fill_buffer_mono` for a full-length block (the engine
always passes blocks of exactly `block_size` samples; the short-block
padding branch is modelled separately by `NpArr.padMono` below).  First
call: write the block into the back half of the buffer.  Later calls: roll
the buffer left by `B`, write the block into `[B, 2B)`, roll both FDLs
right by `B+1`.  In both cases the spectrum of the buffer is written into
the first `B+1` bins of both FDLs. -/
def fill_buffer_mono (s : Conv) (block : ℕ → ℝ) : Conv :=
  let B := s.block_size
  if s.processCounter = 0 then
    let buf : ℕ → ℝ := fun i => if B ≤ i then block (i - B) else s.buffer i
    { s with
      buffer := buf
      FDL_left := fun i => if i < B + 1 then rfft (2 * B) buf i else s.FDL_left i
      FDL_right := fun i => if i < B + 1 then rfft (2 * B) buf i else s.FDL_right i }
  else
    let rolled := nroll (2 * B) (-(B : ℤ)) s.buffer
    let buf : ℕ → ℝ := fun i => if B ≤ i ∧ i < 2 * B then block (i - B) else rolled i
    let fdl := s.IR_blocks * (B + 1)
    let fdlL := nroll fdl ((B : ℤ) + 1) s.FDL_left
    let fdlR := nroll fdl ((B : ℤ) + 1) s.FDL_right
    { s with
      buffer := buf
      FDL_left := fun i => if i < B + 1 then rfft (2 * B) buf i else fdlL i
      FDL_right := fun i => if i < B + 1 then rfft (2 * B) buf i else fdlR i }

/-- `ConvolverFFTW.fill_buffer_stereo` for full-length `(B, 2)` blocks:
channel 0 drives `buffer`/`FDL_left`, channel 1 drives
`buffer2`/`FDL_right`. -/
def fill_buffer_stereo (s : Conv) (block : ℕ → ℝ × ℝ) : Conv :=
  let B := s.block_size
  if s.processCounter = 0 then
    let buf : ℕ → ℝ := fun i => if B ≤ i then (block (i - B)).1 else s.buffer i
    let buf2 : ℕ → ℝ := fun i => if B ≤ i then (block (i - B)).2 else s.buffer2 i
    { s with
      buffer := buf
      buffer2 := buf2
      FDL_left := fun i => if i < B + 1 then rfft (2 * B) buf i else s.FDL_left i
      FDL_right := fun i => if i < B + 1 then rfft (2 * B) buf2 i else s.FDL_right i }
  else
    let rolled := nroll (2 * B) (-(B : ℤ)) s.buffer
    let rolled2 := nroll (2 * B) (-(B : ℤ)) s.buffer2
    let buf : ℕ → ℝ := fun i => if B ≤ i then (block (i - B)).1 else rolled i
    let buf2 : ℕ → ℝ := fun i => if B ≤ i then (block (i - B)).2 else rolled2 i
    let fdl := s.IR_blocks * (B + 1)
    let fdlL := nroll fdl ((B : ℤ) + 1) s.FDL_left
    let fdlR := nroll fdl ((B : ℤ) + 1) s.FDL_right
    { s with
      buffer := buf
      buffer2 := buf2
      FDL_left := fun i => if i < B + 1 then rfft (2 * B) buf i else fdlL i
      FDL_right := fun i => if i < B + 1 then rfft (2 * B) buf2 i else fdlR i }

/-- `ConvolverFFTW.multiply_and_add`: on partition 0 the accumulator is
replaced (old data discarded), afterwards the pointwise product of filter
block and FDL snippet is added. -/
def multiply_and_add (B IR_block_count : ℕ) (result : ℕ → ℂ)
    (input1 : ℕ → ℕ → ℂ) (input2 : ℕ → ℂ) : ℕ → ℂ :=
  fun k =>
    if IR_block_count = 0 then
      input1 IR_block_count k * input2 (IR_block_count * (B + 1) + k)
    else
      result k + input1 IR_block_count k * input2 (IR_block_count * (B + 1) + k)

/-- The `for irBlockCount in range(cnt)` loop of `process`, folding
`multiply_and_add` over the partitions in order. -/
def macLoop (B : ℕ) (TF : ℕ → ℕ → ℂ) (FDL : ℕ → ℂ) : ℕ → (ℕ → ℂ) → (ℕ → ℂ)
  | 0, r => r
  | cnt + 1, r => multiply_and_add B cnt (macLoop B TF FDL cnt r) TF FDL

/-- The cosine-squared fade-out window computed in `__init__`:
`crossFadeOut[n] = cos(n/(B-1)·(π/2))²`. -/
def crossFadeOut (B n : ℕ) : ℝ :=
  Real.cos ((n : ℝ) / ((B : ℝ) - 1) * (Real.pi / 2)) ^ 2

/-- The fade-in window: `np.flipud` of `crossFadeOut`, i.e.
`crossFadeIn[n] = crossFadeOut[B-1-n]`. -/
def crossFadeIn (B n : ℕ) : ℝ :=
  crossFadeOut B (B - 1 - n)

/-- The part of `ConvolverFFTW.process` after the buffer fill: the
multiply-accumulate loop over all partitions (also for the previous filter
when `interpolate` is set), inverse FFT keeping the second half of the
`2B` samples, crossfade when `interpolate` is set, counter increment and
reset of `interpolate`.  Returns the new state and `(outputLeft,
outputRight)`. -/
def processCore (s : Conv) : Conv × ((ℕ → ℝ) × (ℕ → ℝ)) :=
  let B := s.block_size
  let K := s.IR_blocks
  let rL := macLoop B s.TF_left_blocked s.FDL_left K s.resultLeftFreq
  let rR := macLoop B s.TF_right_blocked s.FDL_right K s.resultRightFreq
  let rLp := if s.interpolate then
      macLoop B s.TF_left_blocked_previous s.FDL_left K s.resultLeftFreqPrevious
    else s.resultLeftFreqPrevious
  let rRp := if s.interpolate then
      macLoop B s.TF_right_blocked_previous s.FDL_right K s.resultRightFreqPrevious
    else s.resultRightFreqPrevious
  let outL : ℕ → ℝ := fun n => irfft (2 * B) rL (B + n)
  let outR : ℕ → ℝ := fun n => irfft (2 * B) rR (B + n)
  let outL2 : ℕ → ℝ := if s.interpolate then
      fun n => outL n * crossFadeIn B n + irfft (2 * B) rLp (B + n) * crossFadeOut B n
    else outL
  let outR2 : ℕ → ℝ := if s.interpolate then
      fun n => outR n * crossFadeIn B n + irfft (2 * B) rRp (B + n) * crossFadeOut B n
    else outR
  ({ s with
      resultLeftFreq := rL
      resultRightFreq := rR
      resultLeftFreqPrevious := rLp
      resultRightFreqPrevious := rRp
      processCounter := s.processCounter + 1
      interpolate := false },
   (outL2, outR2))

/-- `ConvolverFFTW.process` of a mono-mode instance (`process_stereo =
False`): fill the mono buffer, then the shared tail. -/
def process (s : Conv) (block : ℕ → ℝ) : Conv × ((ℕ → ℝ) × (ℕ → ℝ)) :=
  processCore (fill_buffer_mono s block)

/-- `ConvolverFFTW.process` of a stereo-mode instance (`process_stereo =
True`). -/
def processSt (s : Conv) (block : ℕ → ℝ × ℝ) : Conv × ((ℕ → ℝ) × (ℕ → ℝ)) :=
  processCore (fill_buffer_stereo s block)

/-- Feed a list of mono blocks through `process`, collecting the outputs. -/
def runMono (s : Conv) : List (ℕ → ℝ) → Conv × List ((ℕ → ℝ) × (ℕ → ℝ))
  | [] => (s, [])
  | x :: xs =>
    let p := process s x
    let q := runMono p.1 xs
    (q.1, p.2 :: q.2)

/-- Feed a list of stereo blocks through `processSt`, collecting the
outputs. -/
def runStereo (s : Conv) : List (ℕ → ℝ × ℝ) → Conv × List ((ℕ → ℝ) × (ℕ → ℝ))
  | [] => (s, [])
  | x :: xs =>
    let p := processSt s x
    let q := runStereo p.1 xs
    (q.1, p.2 :: q.2)

/-- An API call on a mono-mode convolver: either `setIR` with a blocked
time-domain filter pair and a crossfade flag, or `process` with an input
block. -/
inductive EvM where
  | setIR (hl hr : ℕ → ℕ → ℝ) (fade : Bool)
  | proc (x : ℕ → ℝ)

/-- Execute a list of API calls on a mono-mode convolver, collecting the
outputs of the `process` calls. -/
def runEvM (s : Conv) : List EvM → Conv × List ((ℕ → ℝ) × (ℕ → ℝ))
  | [] => (s, [])
  | EvM.setIR hl hr fade :: es => runEvM (setIR s hl hr fade) es
  | EvM.proc x :: es =>
    let p := process s x
    let q := runEvM p.1 es
    (q.1, p.2 :: q.2)

/-- The input blocks handed to `process` during a mono call trace. -/
def procInputsM : List EvM → List (ℕ → ℝ)
  | [] => []
  | EvM.setIR _ _ _ :: es => procInputsM es
  | EvM.proc x :: es => x :: procInputsM es

/-- A call trace containing no crossfading `setIR(·, true)` call. -/
def noFadeM (es : List EvM) : Prop :=
  ∀ hl hr fade, EvM.setIR hl hr fade ∈ es → fade = false

/-- An API call on a stereo-mode convolver. -/
inductive EvS where
  | setIR (hl hr : ℕ → ℕ → ℝ) (fade : Bool)
  | proc (x : ℕ → ℝ × ℝ)

/-- Execute a list of API calls on a stereo-mode convolver. -/
def runEvS (s : Conv) : List EvS → Conv × List ((ℕ → ℝ) × (ℕ → ℝ))
  | [] => (s, [])
  | EvS.setIR hl hr fade :: es => runEvS (setIR s hl hr fade) es
  | EvS.proc x :: es =>
    let p := processSt s x
    let q := runEvS p.1 es
    (q.1, p.2 :: q.2)

/-- The input blocks handed to `process` during a stereo call trace. -/
def procInputsS : List EvS → List (ℕ → ℝ × ℝ)
  | [] => []
  | EvS.setIR _ _ _ :: es => procInputsS es
  | EvS.proc x :: es => x :: procInputsS es

/-- A stereo call trace containing no crossfading `setIR(·, true)` call. -/
def noFadeS (es : List EvS) : Prop :=
  ∀ hl hr fade, EvS.setIR hl hr fade ∈ es → fade = false

/-- Two convolver states agree on their audio data: sizes, input buffers,
frequency-domain delay lines and block counter — everything `process`
reads besides the filter spectra, the accumulators and the crossfade
flag. -/
def audioEq (s t : Conv) : Prop :=
  s.block_size = t.block_size ∧ s.IR_blocks = t.IR_blocks ∧ s.buffer = t.buffer
  ∧ s.buffer2 = t.buffer2 ∧ s.FDL_left = t.FDL_left ∧ s.FDL_right = t.FDL_right
  ∧ s.processCounter = t.processCounter

/-- The overlap-save window of slot `i` after processing the blocks `xs`:
first half the block processed `i+1` calls ago (zeros if there is none),
second half the block processed `i` calls ago.  Blocks count from the end
of `xs`: the most recent block is `xs[length-1]`. -/
def bufAt (B : ℕ) (xs : List (ℕ → ℝ)) (i : ℕ) : ℕ → ℝ :=
  fun j =>
    if j < B then
      (if xs.length - 1 - i = 0 then 0
       else (xs.getD (xs.length - 2 - i) (fun _ => 0)) j)
    else (xs.getD (xs.length - 1 - i) (fun _ => 0)) (j - B)

/-- The all-zero blocked impulse response. -/
def zeroIR : ℕ → ℕ → ℝ := fun _ _ => 0

/-- A blocked impulse response whose every block is a unit impulse. -/
def deltaIR : ℕ → ℕ → ℝ := fun _ j => if j = 0 then 1 else 0

/-- A unit-impulse input block. -/
def deltaBlock : ℕ → ℝ := fun j => if j = 0 then 1 else 0

/-- A reachable convolver state with all-zero current spectra: construct
with `ir_size = 2`, `block_size = 2` (one partition), install a unit
impulse filter without crossfade, then install the zero filter WITH
crossfade.  The current spectra are zero, the previous spectra are all
ones, and `interpolate` is pending. -/
def cexConv : Conv := setIR (setIR (initState 2 2) deltaIR deltaIR false) zeroIR zeroIR true

end

/-! Model of `SoundHandler` (`soundhandler.py`), for a single (mono)
active channel; samples are modelled as rationals since the handler only
copies them.  The background loader thread (`read_sound_file`) is modelled
by the deterministic step `readSoundFileStep`, executed between
`buffer_read` calls (the scenario in the spec assumes every requested file
is decoded and available in time); the decoded content of each path is
given by an environment `env : String → List ℚ`. -/

/-- Helper for `pySplit`: split a character list on a separator. -/
def splitOnChar (sep : Char) : List Char → List (List Char)
  | [] => [[]]
  | c :: rest =>
    let r := splitOnChar sep rest
    if c = sep then [] :: r
    else
      match r with
      | [] => [[c]]
      | h :: t => (c :: h) :: t

/-- Python's `str.split(s, sep)` for a single-character separator (always
returns at least one piece; empty pieces are kept). -/
def pySplit (s : String) (sep : Char) : List String :=
  (splitOnChar sep s.toList).map String.mk

/-- State of a `SoundHandler` instance, restricted to one channel. -/
structure SH where
  chunk_size : ℕ
  buffer : List ℚ
  sound : List ℚ
  sound_file : List ℚ
  frame_count : ℕ
  active_channels : ℕ
  soundPath : String
  new_sound_file_request : Bool
  new_sound_file_loaded : Bool
  loopSound : Bool
  currentSoundFile : ℕ
  soundFileList : List String

/-- `SoundHandler.__init__` (buffer of `2·block_size` zeros, no sound,
`currentSoundFile = 1`, empty playlist). -/
def SH.init (block_size : ℕ) (loopSound : Bool) : SH where
  chunk_size := block_size
  buffer := List.replicate (2 * block_size) 0
  sound := []
  sound_file := []
  frame_count := 0
  active_channels := 0
  soundPath := ""
  new_sound_file_request := false
  new_sound_file_loaded := false
  loopSound := loopSound
  currentSoundFile := 1
  soundFileList := []

/-- `SoundHandler.request_new_sound_file`: split the playlist spec on `#`,
point `soundPath` at the first entry, reset `currentSoundFile` to 1, raise
the request flag. -/
def SH.request_new_sound_file (s : SH) (sound_file_list : String) : SH :=
  let l := pySplit sound_file_list '#'
  { s with
    soundPath := l.headD ""
    soundFileList := l
    currentSoundFile := 1
    new_sound_file_request := true }

/-- `SoundHandler.request_next_sound_file`: advance `currentSoundFile`,
point `soundPath` at entry `currentSoundFile - 1` (after the increment),
raise the request flag. -/
def SH.request_next_sound_file (s : SH) : SH :=
  { s with
    currentSoundFile := s.currentSoundFile + 1
    soundPath := s.soundFileList.getD (s.currentSoundFile + 1 - 1) ""
    new_sound_file_request := true }

/-- One iteration of the loader loop `SoundHandler.read_sound_file`: when
a request is pending, decode `soundPath` (via `env`), pad to a multiple of
the chunk size with trailing zeros, store it in `sound_file`, set
`active_channels` (1: mono), clear the request flag and raise the loaded
flag. -/
def SH.readSoundFileStep (env : String → List ℚ) (s : SH) : SH :=
  if s.new_sound_file_request then
    let data := env s.soundPath
    let padded :=
      if data.length % s.chunk_size ≠ 0 then
        data ++ List.replicate (s.chunk_size - data.length % s.chunk_size) 0
      else data
    { s with
      sound_file := padded
      active_channels := 1
      new_sound_file_request := false
      new_sound_file_loaded := true }
  else s

/-- `SoundHandler.buffer_add_silence`: shift the buffer left by one chunk
and append a chunk of zeros (slice assignments act on the active
channels). -/
def SH.buffer_add_silence (s : SH) : SH :=
  if 1 ≤ s.active_channels then
    { s with buffer := s.buffer.drop s.chunk_size ++ List.replicate s.chunk_size 0 }
  else s

/-- `SoundHandler.buffer_add_sound`: if another full chunk of the current
sound remains (`(frame_count+1)·chunk < len(sound)`), shift the buffer and
append it; otherwise advance the playlist, or restart it when
`loopSound`, or add silence. -/
def SH.buffer_add_sound (s : SH) : SH :=
  if (s.frame_count + 1) * s.chunk_size < s.sound.length then
    { s with
      buffer :=
        if 1 ≤ s.active_channels then
          s.buffer.drop s.chunk_size
            ++ ((s.sound.drop (s.frame_count * s.chunk_size)).take s.chunk_size)
        else s.buffer
      frame_count := s.frame_count + 1 }
  else if s.currentSoundFile < s.soundFileList.length ∧ s.new_sound_file_request = false then
    s.request_next_sound_file
  else if s.loopSound = true ∧ s.new_sound_file_request = false then
    { ({ s with currentSoundFile := 0 }).request_next_sound_file with frame_count := 0 }
  else
    s.buffer_add_silence

/-- `SoundHandler.buffer_flush`: reset the buffer to zeros. -/
def SH.buffer_flush (s : SH) : SH :=
  { s with buffer := List.replicate (2 * s.chunk_size) 0 }

/-- `SoundHandler.buffer_read`: adopt a freshly loaded file if flagged
(flush, reset cursor), then slide the buffer via `buffer_add_sound`, and
return the front half.  The returned numpy slice is a view of the buffer,
so it reflects the mutations `buffer_add_sound` performed; with no active
channels the slice is empty. -/
def SH.buffer_read (s : SH) : List ℚ × SH :=
  let s1 :=
    if s.new_sound_file_loaded then
      { s.buffer_flush with
        sound := s.sound_file
        frame_count := 0
        new_sound_file_loaded := false }
    else s
  let s2 := s1.buffer_add_sound
  (if 1 ≤ s2.active_channels then s2.buffer.take s2.chunk_size else [], s2)

/-- One block-period of the engine from the sound handler's viewpoint:
the loader thread completes any pending load, then the audio callback
calls `buffer_read`. -/
def SH.step (env : String → List ℚ) (s : SH) : List ℚ × SH :=
  (s.readSoundFileStep env).buffer_read

/-- Run `n` block-periods, collecting the returned blocks. -/
def SH.run (env : String → List ℚ) (s : SH) : ℕ → List (List ℚ)
  | 0 => []
  | n + 1 =>
    let p := s.step env
    p.1 :: SH.run env p.2 n

/-- Decoded-file environment for the playlist scenario of C6: mono file
`a` is 512 samples of value 1, mono file `b` is 512 samples of value 2. -/
def c6Env : String → List ℚ :=
  fun p => if p = "a" then List.replicate 512 1
    else if p = "b" then List.replicate 512 2 else []

/-- Start state for the C6 scenario: a fresh `SoundHandler` with
`block_size = 256`, `loopSound = false`, after
`request_new_sound_file("a#b")`. -/
def c6Start : SH := (SH.init 256 false).request_new_sound_file "a#b"

/-! Model of `BinSimConfig` and `parse_boolean` (`application.py`). -/

/-- A value stored in `configurationDict`: Python strings, ints, floats,
bools, or `None` (which `read_from_file` can store for malformed
booleans). -/
inductive ConfigValue where
  | str (v : String)
  | int (v : ℤ)
  | float (v : ℚ)
  | bool (v : Bool)
  | none
deriving DecidableEq

/-- `parse_boolean` on the string read from the config file: `'True' ↦
True`, `'False' ↦ False`, anything else `↦ None`. -/
def parse_boolean (any_value : String) : Option Bool :=
  if any_value = "True" then some true
  else if any_value = "False" then some false
  else Option.none

/-- The default `configurationDict` of `BinSimConfig.__init__`. -/
def defaultConfig : List (String × ConfigValue) :=
  [("soundfile", ConfigValue.str ""),
   ("blockSize", ConfigValue.int 256),
   ("filterSize", ConfigValue.int 16384),
   ("filterList", ConfigValue.str "brirs/filter_list_kemar5.txt"),
   ("enableCrossfading", ConfigValue.bool false),
   ("useHeadphoneFilter", ConfigValue.bool false),
   ("loudnessFactor", ConfigValue.float 1),
   ("maxChannels", ConfigValue.int 8),
   ("samplingRate", ConfigValue.int 44100),
   ("loopSound", ConfigValue.bool true)]

/-- Store a value under a key of an association-list dictionary. -/
def dictSet (d : List (String × ConfigValue)) (key : String) (v : ConfigValue) :
    List (String × ConfigValue) :=
  d.map fun p => if p.1 = key then (key, v) else p

/-- Conversion `config_value_type(value)` for the non-bool types (the
`int`/`float` constructors raise on malformed input in Python; those
paths are not exercised by any claim, so malformed numerals are mapped to
0 here). -/
def convertValue (old : ConfigValue) (value : String) : ConfigValue :=
  match old with
  | ConfigValue.str _ => ConfigValue.str value
  | ConfigValue.int _ => ConfigValue.int ((value.toInt?).getD 0)
  | ConfigValue.float _ => ConfigValue.float (((value.toInt?).getD 0 : ℤ) : ℚ)
  | ConfigValue.bool _ => ConfigValue.bool false
  | ConfigValue.none => ConfigValue.none

/-- One line of `BinSimConfig.read_from_file`: unknown keys only warn;
for a bool-typed key the value is parsed with `parse_boolean`, a warning
is logged when the result is `None`, and the result — including `None` —
is stored; other types are converted and stored.  Returns the updated
dictionary and whether a warning was logged. -/
def readConfigLine (d : List (String × ConfigValue)) (key value : String) :
    List (String × ConfigValue) × Bool :=
  match d.lookup key with
  | Option.none => (d, true)
  | Option.some (ConfigValue.bool _) =>
    let boolean_config := parse_boolean value
    (dictSet d key
      (match boolean_config with
       | Option.some b => ConfigValue.bool b
       | Option.none => ConfigValue.none),
     boolean_config.isNone)
  | Option.some old => (dictSet d key (convertValue old value), false)

/-! Model of the scaling / clip-check tail of the audio callback
(`application.py`, `audio_callback.callback`), over one block of stereo
samples.  `binsim.result` is a list of `(left, right)` rows. -/

/-- The peak `np.max(np.abs(result))` of a block. -/
def peakAbs (result : List (ℚ × ℚ)) : ℚ :=
  result.foldr (fun p m => max (max |p.1| |p.2|) m) 0

/-- The scaling step: `result /= num_channels * 2` guarded by
`num_channels != 0`, then `result *= loudnessFactor`. -/
def scaleResult (num_channels : ℕ) (loudnessFactor : ℚ) (result : List (ℚ × ℚ)) :
    List (ℚ × ℚ) :=
  let r1 :=
    if num_channels ≠ 0 then
      result.map fun p => (p.1 / ((num_channels : ℚ) * 2), p.2 / ((num_channels : ℚ) * 2))
    else result
  r1.map fun p => (p.1 * loudnessFactor, p.2 * loudnessFactor)

/-- Scaling plus the clip check `np.max(np.abs(result)) > 1` (which only
logs): returns the block handed to the sink and whether the clip warning
was logged. -/
def callbackFinish (num_channels : ℕ) (loudnessFactor : ℚ) (result : List (ℚ × ℚ)) :
    List (ℚ × ℚ) × Bool :=
  let r := scaleResult num_channels loudnessFactor result
  (r, decide (1 < peakAbs r))

/-- The slice `binsim.result[:block_size]` returned to the sink. -/
def callbackReturn (block_size : ℕ) (result : List (ℚ × ℚ)) : List (ℚ × ℚ) :=
  result.take block_size

/-! Minimal model of numpy array shapes, for the short-block zero-padding
branches of `fill_buffer_mono` / `fill_buffer_stereo` (row-major data;
only the axis-0 success path is ever taken — the axis-1 call fails
validation first). -/

/-- A numpy array: its shape and row-major data. -/
structure NpArr where
  shape : List ℕ
  data : List ℚ
deriving DecidableEq

/-- `ndarray.size`: product of the dimensions. -/
def NpArr.size (a : NpArr) : ℕ := a.shape.foldr (· * ·) 1

/-- `np.zeros(shape)`. -/
def npZeros (shape : List ℕ) : NpArr :=
  ⟨shape, List.replicate (shape.foldr (· * ·) 1) 0⟩

/-- `np.concatenate((a, b), axis)`: all inputs must have the same number
of dimensions, the axis must exist, and all other dimensions must agree;
otherwise a `ValueError` is raised. -/
def npConcatenate (a b : NpArr) (axis : ℕ) : Except String NpArr :=
  if a.shape.length ≠ b.shape.length then
    Except.error "all the input arrays must have the same number of dimensions"
  else if ¬ axis < a.shape.length then
    Except.error "axis is out of bounds"
  else if ¬ (List.range a.shape.length).all
      (fun i => i == axis || a.shape.getD i 0 == b.shape.getD i 0) then
    Except.error "all the input array dimensions except for the concatenation axis must match exactly"
  else
    Except.ok ⟨(List.range a.shape.length).map
        (fun i => if i = axis then a.shape.getD i 0 + b.shape.getD i 0 else a.shape.getD i 0),
      a.data ++ b.data⟩

/-- The short-block branch of `fill_buffer_mono`: for `block.size <
block_size`, `np.concatenate((block, np.zeros((1, block_size -
block.size))), 1)`. -/
def padMono (block_size : ℕ) (block : NpArr) : Except String NpArr :=
  if block.size < block_size then
    npConcatenate block (npZeros [1, block_size - block.size]) 1
  else Except.ok block

/-- The short-block branch of `fill_buffer_stereo`: for `block.size <
block_size`, `np.concatenate((block, np.zeros((block_size - block.size,
2))), 0)`. -/
def padStereo (block_size : ℕ) (block : NpArr) : Except String NpArr :=
  if block.size < block_size then
    npConcatenate block (npZeros [block_size - block.size, 2]) 0
  else Except.ok block

noncomputable section

/-! Projection lemmas: which state fields each operation preserves. -/

@[simp] theorem fill_buffer_mono_block_size (s : Conv) (x : ℕ → ℝ) :
    (fill_buffer_mono s x).block_size = s.block_size := by
  unfold fill_buffer_mono; split <;> rfl

@[simp] theorem fill_buffer_mono_IR_blocks (s : Conv) (x : ℕ → ℝ) :
    (fill_buffer_mono s x).IR_blocks = s.IR_blocks := by
  unfold fill_buffer_mono; split <;> rfl

@[simp] theorem fill_buffer_mono_TF_left (s : Conv) (x : ℕ → ℝ) :
    (fill_buffer_mono s x).TF_left_blocked = s.TF_left_blocked := by
  unfold fill_buffer_mono; split <;> rfl

@[simp] theorem fill_buffer_mono_TF_right (s : Conv) (x : ℕ → ℝ) :
    (fill_buffer_mono s x).TF_right_blocked = s.TF_right_blocked := by
  unfold fill_buffer_mono; split <;> rfl

@[simp] theorem fill_buffer_mono_TF_left_prev (s : Conv) (x : ℕ → ℝ) :
    (fill_buffer_mono s x).TF_left_blocked_previous = s.TF_left_blocked_previous := by
  unfold fill_buffer_mono; split <;> rfl

@[simp] theorem fill_buffer_mono_TF_right_prev (s : Conv) (x : ℕ → ℝ) :
    (fill_buffer_mono s x).TF_right_blocked_previous = s.TF_right_blocked_previous := by
  unfold fill_buffer_mono; split <;> rfl

@[simp] theorem fill_buffer_mono_resultLeft (s : Conv) (x : ℕ → ℝ) :
    (fill_buffer_mono s x).resultLeftFreq = s.resultLeftFreq := by
  unfold fill_buffer_mono; split <;> rfl

@[simp] theorem fill_buffer_mono_resultRight (s : Conv) (x : ℕ → ℝ) :
    (fill_buffer_mono s x).resultRightFreq = s.resultRightFreq := by
  unfold fill_buffer_mono; split <;> rfl

@[simp] theorem fill_buffer_mono_resultLeftPrev (s : Conv) (x : ℕ → ℝ) :
    (fill_buffer_mono s x).resultLeftFreqPrevious = s.resultLeftFreqPrevious := by
  unfold fill_buffer_mono; split <;> rfl

@[simp] theorem fill_buffer_mono_resultRightPrev (s : Conv) (x : ℕ → ℝ) :
    (fill_buffer_mono s x).resultRightFreqPrevious = s.resultRightFreqPrevious := by
  unfold fill_buffer_mono; split <;> rfl

@[simp] theorem fill_buffer_mono_processCounter (s : Conv) (x : ℕ → ℝ) :
    (fill_buffer_mono s x).processCounter = s.processCounter := by
  unfold fill_buffer_mono; split <;> rfl

@[simp] theorem fill_buffer_mono_interpolate (s : Conv) (x : ℕ → ℝ) :
    (fill_buffer_mono s x).interpolate = s.interpolate := by
  unfold fill_buffer_mono; split <;> rfl

@[simp] theorem fill_buffer_mono_buffer2 (s : Conv) (x : ℕ → ℝ) :
    (fill_buffer_mono s x).buffer2 = s.buffer2 := by
  unfold fill_buffer_mono; split <;> rfl

@[simp] theorem fill_buffer_stereo_block_size (s : Conv) (x : ℕ → ℝ × ℝ) :
    (fill_buffer_stereo s x).block_size = s.block_size := by
  unfold fill_buffer_stereo; split <;> rfl

@[simp] theorem fill_buffer_stereo_IR_blocks (s : Conv) (x : ℕ → ℝ × ℝ) :
    (fill_buffer_stereo s x).IR_blocks = s.IR_blocks := by
  unfold fill_buffer_stereo; split <;> rfl

@[simp] theorem fill_buffer_stereo_TF_left (s : Conv) (x : ℕ → ℝ × ℝ) :
    (fill_buffer_stereo s x).TF_left_blocked = s.TF_left_blocked := by
  unfold fill_buffer_stereo; split <;> rfl

@[simp] theorem fill_buffer_stereo_TF_right (s : Conv) (x : ℕ → ℝ × ℝ) :
    (fill_buffer_stereo s x).TF_right_blocked = s.TF_right_blocked := by
  unfold fill_buffer_stereo; split <;> rfl

@[simp] theorem fill_buffer_stereo_TF_left_prev (s : Conv) (x : ℕ → ℝ × ℝ) :
    (fill_buffer_stereo s x).TF_left_blocked_previous = s.TF_left_blocked_previous := by
  unfold fill_buffer_stereo; split <;> rfl

@[simp] theorem fill_buffer_stereo_TF_right_prev (s : Conv) (x : ℕ → ℝ × ℝ) :
    (fill_buffer_stereo s x).TF_right_blocked_previous = s.TF_right_blocked_previous := by
  unfold fill_buffer_stereo; split <;> rfl

@[simp] theorem fill_buffer_stereo_resultLeft (s : Conv) (x : ℕ → ℝ × ℝ) :
    (fill_buffer_stereo s x).resultLeftFreq = s.resultLeftFreq := by
  unfold fill_buffer_stereo; split <;> rfl

@[simp] theorem fill_buffer_stereo_resultRight (s : Conv) (x : ℕ → ℝ × ℝ) :
    (fill_buffer_stereo s x).resultRightFreq = s.resultRightFreq := by
  unfold fill_buffer_stereo; split <;> rfl

@[simp] theorem fill_buffer_stereo_resultLeftPrev (s : Conv) (x : ℕ → ℝ × ℝ) :
    (fill_buffer_stereo s x).resultLeftFreqPrevious = s.resultLeftFreqPrevious := by
  unfold fill_buffer_stereo; split <;> rfl

@[simp] theorem fill_buffer_stereo_resultRightPrev (s : Conv) (x : ℕ → ℝ × ℝ) :
    (fill_buffer_stereo s x).resultRightFreqPrevious = s.resultRightFreqPrevious := by
  unfold fill_buffer_stereo; split <;> rfl

@[simp] theorem fill_buffer_stereo_processCounter (s : Conv) (x : ℕ → ℝ × ℝ) :
    (fill_buffer_stereo s x).processCounter = s.processCounter := by
  unfold fill_buffer_stereo; split <;> rfl

@[simp] theorem fill_buffer_stereo_interpolate (s : Conv) (x : ℕ → ℝ × ℝ) :
    (fill_buffer_stereo s x).interpolate = s.interpolate := by
  unfold fill_buffer_stereo; split <;> rfl

@[simp] theorem processCore_buffer (s : Conv) : (processCore s).1.buffer = s.buffer := rfl

@[simp] theorem processCore_buffer2 (s : Conv) : (processCore s).1.buffer2 = s.buffer2 := rfl

@[simp] theorem processCore_FDL_left (s : Conv) : (processCore s).1.FDL_left = s.FDL_left := rfl

@[simp] theorem processCore_FDL_right (s : Conv) : (processCore s).1.FDL_right = s.FDL_right := rfl

@[simp] theorem processCore_TF_left (s : Conv) :
    (processCore s).1.TF_left_blocked = s.TF_left_blocked := rfl

@[simp] theorem processCore_TF_right (s : Conv) :
    (processCore s).1.TF_right_blocked = s.TF_right_blocked := rfl

@[simp] theorem processCore_TF_left_prev (s : Conv) :
    (processCore s).1.TF_left_blocked_previous = s.TF_left_blocked_previous := rfl

@[simp] theorem processCore_TF_right_prev (s : Conv) :
    (processCore s).1.TF_right_blocked_previous = s.TF_right_blocked_previous := rfl

@[simp] theorem processCore_processCounter (s : Conv) :
    (processCore s).1.processCounter = s.processCounter + 1 := rfl

@[simp] theorem processCore_interpolate (s : Conv) :
    (processCore s).1.interpolate = false := rfl

@[simp] theorem processCore_block_size (s : Conv) :
    (processCore s).1.block_size = s.block_size := rfl

@[simp] theorem processCore_IR_blocks (s : Conv) :
    (processCore s).1.IR_blocks = s.IR_blocks := rfl

@[simp] theorem setIR_buffer (s : Conv) (hl hr : ℕ → ℕ → ℝ) (b : Bool) :
    (setIR s hl hr b).buffer = s.buffer := rfl

@[simp] theorem setIR_buffer2 (s : Conv) (hl hr : ℕ → ℕ → ℝ) (b : Bool) :
    (setIR s hl hr b).buffer2 = s.buffer2 := rfl

@[simp] theorem setIR_FDL_left (s : Conv) (hl hr : ℕ → ℕ → ℝ) (b : Bool) :
    (setIR s hl hr b).FDL_left = s.FDL_left := rfl

@[simp] theorem setIR_FDL_right (s : Conv) (hl hr : ℕ → ℕ → ℝ) (b : Bool) :
    (setIR s hl hr b).FDL_right = s.FDL_right := rfl

@[simp] theorem setIR_resultLeft (s : Conv) (hl hr : ℕ → ℕ → ℝ) (b : Bool) :
    (setIR s hl hr b).resultLeftFreq = s.resultLeftFreq := rfl

@[simp] theorem setIR_resultRight (s : Conv) (hl hr : ℕ → ℕ → ℝ) (b : Bool) :
    (setIR s hl hr b).resultRightFreq = s.resultRightFreq := rfl

@[simp] theorem setIR_resultLeftPrev (s : Conv) (hl hr : ℕ → ℕ → ℝ) (b : Bool) :
    (setIR s hl hr b).resultLeftFreqPrevious = s.resultLeftFreqPrevious := rfl

@[simp] theorem setIR_resultRightPrev (s : Conv) (hl hr : ℕ → ℕ → ℝ) (b : Bool) :
    (setIR s hl hr b).resultRightFreqPrevious = s.resultRightFreqPrevious := rfl

@[simp] theorem setIR_processCounter (s : Conv) (hl hr : ℕ → ℕ → ℝ) (b : Bool) :
    (setIR s hl hr b).processCounter = s.processCounter := rfl

@[simp] theorem setIR_interpolate (s : Conv) (hl hr : ℕ → ℕ → ℝ) (b : Bool) :
    (setIR s hl hr b).interpolate = b := rfl

@[simp] theorem setIR_block_size (s : Conv) (hl hr : ℕ → ℕ → ℝ) (b : Bool) :
    (setIR s hl hr b).block_size = s.block_size := rfl

@[simp] theorem setIR_IR_blocks (s : Conv) (hl hr : ℕ → ℕ → ℝ) (b : Bool) :
    (setIR s hl hr b).IR_blocks = s.IR_blocks := rfl

@[simp] theorem setIR_TF_left (s : Conv) (hl hr : ℕ → ℕ → ℝ) (b : Bool) :
    (setIR s hl hr b).TF_left_blocked = fun i k =>
      if i < s.IR_blocks then transformBlock s.block_size (hl i) k else 0 := rfl

@[simp] theorem setIR_TF_right (s : Conv) (hl hr : ℕ → ℕ → ℝ) (b : Bool) :
    (setIR s hl hr b).TF_right_blocked = fun i k =>
      if i < s.IR_blocks then transformBlock s.block_size (hr i) k else 0 := rfl

@[simp] theorem setIR_TF_left_prev (s : Conv) (hl hr : ℕ → ℕ → ℝ) (b : Bool) :
    (setIR s hl hr b).TF_left_blocked_previous = s.TF_left_blocked := rfl

@[simp] theorem setIR_TF_right_prev (s : Conv) (hl hr : ℕ → ℕ → ℝ) (b : Bool) :
    (setIR s hl hr b).TF_right_blocked_previous = s.TF_right_blocked := rfl

/-! Basic lemmas about the loop, the transforms and the windows. -/

/-- With at least one partition, the multiply-accumulate loop computes the
sum `∑_i TF[i] ⊙ FDL[i·(B+1) .. i·(B+1)+B]`, independently of the stale
accumulator contents. -/
theorem macLoop_eq_sum (B : ℕ) (TF : ℕ → ℕ → ℂ) (FDL : ℕ → ℂ) :
    ∀ cnt, 1 ≤ cnt → ∀ r, macLoop B TF FDL cnt r
      = fun k => ∑ i ∈ Finset.range cnt, TF i k * FDL (i * (B + 1) + k) := by
  intro cnt
  induction cnt with
  | zero => omega
  | succ c ih =>
    intro _ r
    funext k
    by_cases hc : c = 0
    · subst hc
      simp [macLoop, multiply_and_add]
    · simp only [macLoop, multiply_and_add]
      rw [if_neg hc, congrFun (ih (by omega) r) k, Finset.sum_range_succ]

/-- `rfft` only reads the first `n` samples. -/
theorem rfft_congr {n : ℕ} {x y : ℕ → ℝ} (h : ∀ j, j < n → x j = y j) :
    rfft n x = rfft n y := by
  funext k
  refine Finset.sum_congr rfl fun j hj => ?_
  rw [h j (Finset.mem_range.mp hj)]

/-- `irfft` of a spectrum whose stored half (`k ≤ n/2`) is zero is zero. -/
theorem irfft_eq_zero {n : ℕ} {X : ℕ → ℂ} (h : ∀ k, k ≤ n / 2 → X k = 0)
    (m : ℕ) : irfft n X m = 0 := by
  unfold irfft
  rw [Finset.sum_eq_zero, zero_div, Complex.zero_re]
  intro k _
  unfold hermExt
  split
  · rw [h k (by assumption), zero_mul]
  · rw [h (n - k) (by omega), map_zero, zero_mul]

/-- `irfft` only reads the stored half (`k ≤ n/2`) of the spectrum. -/
theorem irfft_congr {n : ℕ} {X Y : ℕ → ℂ} (h : ∀ k, k ≤ n / 2 → X k = Y k)
    (m : ℕ) : irfft n X m = irfft n Y m := by
  unfold irfft
  have hs : (∑ k ∈ Finset.range n, hermExt n X k * cexp2pi n ((k : ℤ) * m))
      = ∑ k ∈ Finset.range n, hermExt n Y k * cexp2pi n ((k : ℤ) * m) := by
    refine Finset.sum_congr rfl fun k _ => ?_
    unfold hermExt
    split
    · rw [h k (by assumption)]
    · rw [h (n - k) (by omega)]
  rw [hs]

@[simp] theorem cexp2pi_zero (n : ℕ) : cexp2pi n 0 = 1 := by
  simp [cexp2pi]

/-- For transform length 4 (block size 2), the DFT exponential is a power
of `i`. -/
theorem cexp2pi_four (m : ℤ) : cexp2pi 4 m = Complex.I ^ m := by
  have hI : Complex.exp (((Real.pi / 2 : ℝ) : ℂ) * Complex.I) = Complex.I := by
    rw [Complex.exp_mul_I, ← Complex.ofReal_cos, ← Complex.ofReal_sin,
        Real.cos_pi_div_two, Real.sin_pi_div_two]
    simp
  have harg : 2 * (Real.pi : ℂ) * Complex.I * (m : ℂ) / ((4 : ℕ) : ℂ)
      = (m : ℂ) * (((Real.pi / 2 : ℝ) : ℂ) * Complex.I) := by
    push_cast
    ring
  rw [cexp2pi, harg, Complex.exp_int_mul, hI]

/-- The forward transform of a one-hot input. -/
theorem rfft_delta (n : ℕ) (c : ℝ) (j0 : ℕ) (hj : j0 < n) (k : ℕ) :
    rfft n (fun j => if j = j0 then c else 0) k = (c : ℂ) * cexp2pi n (-((j0 : ℤ) * k)) := by
  rw [rfft, Finset.sum_eq_single j0]
  · simp
  · intro j _ hne
    simp [hne]
  · intro hmem
    exact absurd (Finset.mem_range.mpr hj) hmem

@[simp] theorem crossFadeOut_zero (B : ℕ) : crossFadeOut B 0 = 1 := by
  simp [crossFadeOut]

theorem crossFadeOut_last (B : ℕ) (hB : 2 ≤ B) : crossFadeOut B (B - 1) = 0 := by
  have h1 : ((B - 1 : ℕ) : ℝ) = (B : ℝ) - 1 := by
    have h : (1 : ℕ) ≤ B := by omega
    rw [Nat.cast_sub h, Nat.cast_one]
  have h2 : ((B : ℝ) - 1) ≠ 0 := by
    have : (2 : ℝ) ≤ (B : ℝ) := by exact_mod_cast hB
    linarith
  rw [crossFadeOut, h1, div_self h2, one_mul, Real.cos_pi_div_two]
  norm_num

theorem crossFadeIn_zero (B : ℕ) (hB : 2 ≤ B) : crossFadeIn B 0 = 0 := by
  rw [crossFadeIn, Nat.sub_zero]
  exact crossFadeOut_last B hB

theorem crossFadeIn_last (B : ℕ) : crossFadeIn B (B - 1) = 1 := by
  rw [crossFadeIn, Nat.sub_self, crossFadeOut_zero]

/-- The mono buffer fill reads only the audio fields (buffer, FDLs,
counter, sizes) of the state: two states agreeing there produce the same
buffer and FDLs. -/
theorem fill_buffer_mono_audio_congr {s t : Conv} (x : ℕ → ℝ)
    (h1 : s.block_size = t.block_size) (h2 : s.IR_blocks = t.IR_blocks)
    (h3 : s.buffer = t.buffer) (h4 : s.processCounter = t.processCounter)
    (h5 : s.FDL_left = t.FDL_left) (h6 : s.FDL_right = t.FDL_right) :
    (fill_buffer_mono s x).buffer = (fill_buffer_mono t x).buffer
    ∧ (fill_buffer_mono s x).FDL_left = (fill_buffer_mono t x).FDL_left
    ∧ (fill_buffer_mono s x).FDL_right = (fill_buffer_mono t x).FDL_right := by
  simp only [fill_buffer_mono, h1, h2, h3, h4, h5, h6]
  split <;> exact ⟨rfl, rfl, rfl⟩

/-- Stereo analogue of `fill_buffer_mono_audio_congr`. -/
theorem fill_buffer_stereo_audio_congr {s t : Conv} (x : ℕ → ℝ × ℝ)
    (h1 : s.block_size = t.block_size) (h2 : s.IR_blocks = t.IR_blocks)
    (h3 : s.buffer = t.buffer) (h3b : s.buffer2 = t.buffer2)
    (h4 : s.processCounter = t.processCounter)
    (h5 : s.FDL_left = t.FDL_left) (h6 : s.FDL_right = t.FDL_right) :
    (fill_buffer_stereo s x).buffer = (fill_buffer_stereo t x).buffer
    ∧ (fill_buffer_stereo s x).buffer2 = (fill_buffer_stereo t x).buffer2
    ∧ (fill_buffer_stereo s x).FDL_left = (fill_buffer_stereo t x).FDL_left
    ∧ (fill_buffer_stereo s x).FDL_right = (fill_buffer_stereo t x).FDL_right := by
  simp only [fill_buffer_stereo, h1, h2, h3, h3b, h4, h5, h6]
  split <;> exact ⟨rfl, rfl, rfl, rfl⟩

/-- Left output of the post-fill stage during a crossfade block. -/
theorem processCore_out_left_interp (s : Conv) (h : s.interpolate = true) :
    (processCore s).2.1 = fun n =>
      irfft (2 * s.block_size)
          (macLoop s.block_size s.TF_left_blocked s.FDL_left s.IR_blocks s.resultLeftFreq)
          (s.block_size + n) * crossFadeIn s.block_size n
        + irfft (2 * s.block_size)
          (macLoop s.block_size s.TF_left_blocked_previous s.FDL_left s.IR_blocks
            s.resultLeftFreqPrevious)
          (s.block_size + n) * crossFadeOut s.block_size n := by
  simp only [processCore, h, if_true]

/-- Right output of the post-fill stage during a crossfade block. -/
theorem processCore_out_right_interp (s : Conv) (h : s.interpolate = true) :
    (processCore s).2.2 = fun n =>
      irfft (2 * s.block_size)
          (macLoop s.block_size s.TF_right_blocked s.FDL_right s.IR_blocks s.resultRightFreq)
          (s.block_size + n) * crossFadeIn s.block_size n
        + irfft (2 * s.block_size)
          (macLoop s.block_size s.TF_right_blocked_previous s.FDL_right s.IR_blocks
            s.resultRightFreqPrevious)
          (s.block_size + n) * crossFadeOut s.block_size n := by
  simp only [processCore, h, if_true]

/-- Left output of the post-fill stage without crossfade. -/
theorem processCore_out_left_noInterp (s : Conv) (h : s.interpolate = false) :
    (processCore s).2.1 = fun n =>
      irfft (2 * s.block_size)
          (macLoop s.block_size s.TF_left_blocked s.FDL_left s.IR_blocks s.resultLeftFreq)
          (s.block_size + n) := by
  simp only [processCore, h, Bool.false_eq_true, if_false]

/-- Right output of the post-fill stage without crossfade. -/
theorem processCore_out_right_noInterp (s : Conv) (h : s.interpolate = false) :
    (processCore s).2.2 = fun n =>
      irfft (2 * s.block_size)
          (macLoop s.block_size s.TF_right_blocked s.FDL_right s.IR_blocks s.resultRightFreq)
          (s.block_size + n) := by
  simp only [processCore, h, Bool.false_eq_true, if_false]

/-- Buffer contents after the first `fill_buffer_mono` call
(`processCounter == 0`): front half untouched, back half the block. -/
theorem fill_buffer_mono_first_buffer (s : Conv) (x : ℕ → ℝ) (h : s.processCounter = 0) :
    (fill_buffer_mono s x).buffer
      = fun i => if s.block_size ≤ i then x (i - s.block_size) else s.buffer i := by
  simp only [fill_buffer_mono, h, if_pos]

/-- FDL (left) after the first `fill_buffer_mono` call. -/
theorem fill_buffer_mono_first_FDL_left (s : Conv) (x : ℕ → ℝ) (h : s.processCounter = 0) :
    (fill_buffer_mono s x).FDL_left
      = fun i => if i < s.block_size + 1 then
          rfft (2 * s.block_size)
            (fun j => if s.block_size ≤ j then x (j - s.block_size) else s.buffer j) i
        else s.FDL_left i := by
  simp only [fill_buffer_mono, h, if_pos]

/-- FDL (right) after the first `fill_buffer_mono` call. -/
theorem fill_buffer_mono_first_FDL_right (s : Conv) (x : ℕ → ℝ) (h : s.processCounter = 0) :
    (fill_buffer_mono s x).FDL_right
      = fun i => if i < s.block_size + 1 then
          rfft (2 * s.block_size)
            (fun j => if s.block_size ≤ j then x (j - s.block_size) else s.buffer j) i
        else s.FDL_right i := by
  simp only [fill_buffer_mono, h, if_pos]

/-- Buffer contents after a later `fill_buffer_mono` call: rolled left by
one block, back half the new block. -/
theorem fill_buffer_mono_later_buffer (s : Conv) (x : ℕ → ℝ) (h : ¬ s.processCounter = 0) :
    (fill_buffer_mono s x).buffer
      = fun i => if s.block_size ≤ i ∧ i < 2 * s.block_size then x (i - s.block_size)
          else nroll (2 * s.block_size) (-(s.block_size : ℤ)) s.buffer i := by
  simp only [fill_buffer_mono, h, if_neg, if_false]

/-- FDL (left) after a later `fill_buffer_mono` call: rolled right by one
slot, slot 0 the spectrum of the new buffer. -/
theorem fill_buffer_mono_later_FDL_left (s : Conv) (x : ℕ → ℝ) (h : ¬ s.processCounter = 0) :
    (fill_buffer_mono s x).FDL_left
      = fun i => if i < s.block_size + 1 then
          rfft (2 * s.block_size)
            (fun j => if s.block_size ≤ j ∧ j < 2 * s.block_size then x (j - s.block_size)
              else nroll (2 * s.block_size) (-(s.block_size : ℤ)) s.buffer j) i
        else nroll (s.IR_blocks * (s.block_size + 1)) ((s.block_size : ℤ) + 1) s.FDL_left i := by
  simp only [fill_buffer_mono, h, if_neg, if_false]

/-- FDL (right) after a later `fill_buffer_mono` call. -/
theorem fill_buffer_mono_later_FDL_right (s : Conv) (x : ℕ → ℝ) (h : ¬ s.processCounter = 0) :
    (fill_buffer_mono s x).FDL_right
      = fun i => if i < s.block_size + 1 then
          rfft (2 * s.block_size)
            (fun j => if s.block_size ≤ j ∧ j < 2 * s.block_size then x (j - s.block_size)
              else nroll (2 * s.block_size) (-(s.block_size : ℤ)) s.buffer j) i
        else nroll (s.IR_blocks * (s.block_size + 1)) ((s.block_size : ℤ) + 1) s.FDL_right i := by
  simp only [fill_buffer_mono, h, if_neg, if_false]

/-- Claim C1, counterexample.  The claim states that the transition block
weights satisfy `w_in[0] = 1` and `w_out[0] = 0` (so its first sample
equals the new-filter output).  With the windows actually computed in
`ConvolverFFTW.__init__` — `w_out[n] = cos(πn/(2(B-1)))²`, `w_in =
flipud(w_out)`, exactly the formula the claim itself gives — the opposite
holds: at block size 256, `w_in[0] = 0` and `w_out[0] = 1`. -/
theorem C1_counterexample : ¬ (crossFadeIn 256 0 = 1 ∧ crossFadeOut 256 0 = 0) := by
  rintro ⟨h1, -⟩
  have h0 := crossFadeIn_zero 256 (by norm_num)
  rw [h1] at h0
  exact one_ne_zero h0

/-- Claim C1, amended.  With `enableCrossfading`, `setIR(h, true)` followed
by one `process(block)` yields the transition block `out[n] =
new_output[n] · w_in[n] + old_output[n] · w_out[n]` (both ears), where
`new_output` is what `setIR(h, false); process(block)` would produce and
`old_output` what `process(block)` under the previous filter would
produce, with `w_out[n] = cos(πn/(2(B-1)))²` and `w_in[n] = w_out[B-1-n]`;
the first sample has weights `w_in[0] = 0`, `w_out[0] = 1` and hence
equals the OLD-filter output, and the last sample has weights
`w_in[B-1] = 1`, `w_out[B-1] = 0` and hence equals the new-filter
output. -/
theorem C1_crossfade_transition (s : Conv) (hl hr : ℕ → ℕ → ℝ) (x : ℕ → ℝ) (n : ℕ)
    (hB : 2 ≤ s.block_size) (hK : 1 ≤ s.IR_blocks) :
    ((process (setIR s hl hr true) x).2.1 n
        = (process (setIR s hl hr false) x).2.1 n * crossFadeIn s.block_size n
          + (process { s with interpolate := false } x).2.1 n * crossFadeOut s.block_size n)
    ∧ ((process (setIR s hl hr true) x).2.2 n
        = (process (setIR s hl hr false) x).2.2 n * crossFadeIn s.block_size n
          + (process { s with interpolate := false } x).2.2 n * crossFadeOut s.block_size n)
    ∧ crossFadeIn s.block_size 0 = 0
    ∧ crossFadeOut s.block_size 0 = 1
    ∧ crossFadeIn s.block_size (s.block_size - 1) = 1
    ∧ crossFadeOut s.block_size (s.block_size - 1) = 0
    ∧ (process (setIR s hl hr true) x).2.1 0
        = (process { s with interpolate := false } x).2.1 0
    ∧ (process (setIR s hl hr true) x).2.1 (s.block_size - 1)
        = (process (setIR s hl hr false) x).2.1 (s.block_size - 1) := by
  have hFa := fill_buffer_mono_audio_congr
      (s := setIR s hl hr true) (t := setIR s hl hr false) x rfl rfl rfl rfl rfl rfl
  have hFb := fill_buffer_mono_audio_congr
      (s := setIR s hl hr true) (t := { s with interpolate := false }) x rfl rfl rfl rfl rfl rfl
  have hL : (process (setIR s hl hr true) x).2.1 = fun m =>
      (process (setIR s hl hr false) x).2.1 m * crossFadeIn s.block_size m
        + (process { s with interpolate := false } x).2.1 m * crossFadeOut s.block_size m := by
    simp only [process]
    rw [processCore_out_left_interp _ (by simp),
        processCore_out_left_noInterp _ (by simp),
        processCore_out_left_noInterp _ (by simp)]
    simp only [fill_buffer_mono_block_size, fill_buffer_mono_IR_blocks, fill_buffer_mono_TF_left,
      fill_buffer_mono_TF_left_prev, fill_buffer_mono_resultLeft, fill_buffer_mono_resultLeftPrev,
      setIR_block_size, setIR_IR_blocks, setIR_TF_left, setIR_TF_left_prev, setIR_resultLeft,
      setIR_resultLeftPrev]
    rw [← hFa.2.1, ← hFb.2.1]
    rw [macLoop_eq_sum s.block_size s.TF_left_blocked
          ((fill_buffer_mono (setIR s hl hr true) x).FDL_left) s.IR_blocks hK
          s.resultLeftFreqPrevious,
        macLoop_eq_sum s.block_size s.TF_left_blocked
          ((fill_buffer_mono (setIR s hl hr true) x).FDL_left) s.IR_blocks hK
          s.resultLeftFreq]
  have hR : (process (setIR s hl hr true) x).2.2 = fun m =>
      (process (setIR s hl hr false) x).2.2 m * crossFadeIn s.block_size m
        + (process { s with interpolate := false } x).2.2 m * crossFadeOut s.block_size m := by
    simp only [process]
    rw [processCore_out_right_interp _ (by simp),
        processCore_out_right_noInterp _ (by simp),
        processCore_out_right_noInterp _ (by simp)]
    simp only [fill_buffer_mono_block_size, fill_buffer_mono_IR_blocks, fill_buffer_mono_TF_right,
      fill_buffer_mono_TF_right_prev, fill_buffer_mono_resultRight,
      fill_buffer_mono_resultRightPrev, setIR_block_size, setIR_IR_blocks, setIR_TF_right,
      setIR_TF_right_prev, setIR_resultRight, setIR_resultRightPrev]
    rw [← hFa.2.2, ← hFb.2.2]
    rw [macLoop_eq_sum s.block_size s.TF_right_blocked
          ((fill_buffer_mono (setIR s hl hr true) x).FDL_right) s.IR_blocks hK
          s.resultRightFreqPrevious,
        macLoop_eq_sum s.block_size s.TF_right_blocked
          ((fill_buffer_mono (setIR s hl hr true) x).FDL_right) s.IR_blocks hK
          s.resultRightFreq]
  refine ⟨by rw [hL], by rw [hR], crossFadeIn_zero _ hB, crossFadeOut_zero _,
      crossFadeIn_last _, crossFadeOut_last _ hB, ?_, ?_⟩
  · simp only [hL]
    rw [crossFadeIn_zero _ hB, crossFadeOut_zero]
    ring
  · simp only [hL]
    rw [crossFadeIn_last, crossFadeOut_last _ hB]
    ring

/-- Witness for C1 at a concrete input: block size 2, one partition, the
zero filter and the zero block. -/
theorem C1_crossfade_transition_witness :
    2 ≤ (initState 4 2).block_size ∧ 1 ≤ (initState 4 2).IR_blocks
    ∧ crossFadeIn (initState 4 2).block_size 0 = 0
    ∧ crossFadeOut (initState 4 2).block_size 0 = 1 :=
  ⟨by norm_num [initState], by norm_num [initState],
   (C1_crossfade_transition (initState 4 2) (fun _ _ => 0) (fun _ _ => 0) (fun _ => 0) 0
      (by norm_num [initState]) (by norm_num [initState])).2.2.1,
   (C1_crossfade_transition (initState 4 2) (fun _ _ => 0) (fun _ _ => 0) (fun _ => 0) 0
      (by norm_num [initState]) (by norm_num [initState])).2.2.2.1⟩

/-- The mono buffer fill commutes with replacing the previous-filter
spectra. -/
theorem fill_buffer_mono_prevTF (s : Conv) (pl pr : ℕ → ℕ → ℂ) (x : ℕ → ℝ) :
    fill_buffer_mono
        { s with TF_left_blocked_previous := pl, TF_right_blocked_previous := pr } x
      = { fill_buffer_mono s x with
          TF_left_blocked_previous := pl, TF_right_blocked_previous := pr } := by
  unfold fill_buffer_mono
  split <;> rfl

/-- The stereo buffer fill commutes with replacing the previous-filter
spectra. -/
theorem fill_buffer_stereo_prevTF (s : Conv) (pl pr : ℕ → ℕ → ℂ) (x : ℕ → ℝ × ℝ) :
    fill_buffer_stereo
        { s with TF_left_blocked_previous := pl, TF_right_blocked_previous := pr } x
      = { fill_buffer_stereo s x with
          TF_left_blocked_previous := pl, TF_right_blocked_previous := pr } := by
  unfold fill_buffer_stereo
  split <;> rfl

/-- Without a pending crossfade, the post-fill stage neither reads nor
clears the previous-filter spectra: they can be replaced freely without
changing the outputs or the rest of the state. -/
theorem processCore_prevTF (t : Conv) (pl pr : ℕ → ℕ → ℂ) (h : t.interpolate = false) :
    processCore { t with TF_left_blocked_previous := pl, TF_right_blocked_previous := pr }
      = ({ (processCore t).1 with
            TF_left_blocked_previous := pl, TF_right_blocked_previous := pr },
         (processCore t).2) := by
  simp only [processCore, h, Bool.false_eq_true, if_false]

/-- `process` with `interpolate = false` ignores the previous-filter
spectra. -/
theorem process_prevTF (s : Conv) (pl pr : ℕ → ℕ → ℂ) (x : ℕ → ℝ)
    (h : s.interpolate = false) :
    process { s with TF_left_blocked_previous := pl, TF_right_blocked_previous := pr } x
      = ({ (process s x).1 with
            TF_left_blocked_previous := pl, TF_right_blocked_previous := pr },
         (process s x).2) := by
  rw [process, fill_buffer_mono_prevTF, processCore_prevTF _ _ _ (by simp [h]), process]

/-- `processSt` with `interpolate = false` ignores the previous-filter
spectra. -/
theorem processSt_prevTF (s : Conv) (pl pr : ℕ → ℕ → ℂ) (x : ℕ → ℝ × ℝ)
    (h : s.interpolate = false) :
    processSt { s with TF_left_blocked_previous := pl, TF_right_blocked_previous := pr } x
      = ({ (processSt s x).1 with
            TF_left_blocked_previous := pl, TF_right_blocked_previous := pr },
         (processSt s x).2) := by
  rw [processSt, fill_buffer_stereo_prevTF, processCore_prevTF _ _ _ (by simp [h]), processSt]

/-- `setIR` overwrites the previous-filter spectra, erasing any earlier
replacement of them. -/
theorem setIR_prevTF (s : Conv) (pl pr : ℕ → ℕ → ℂ) (hl hr : ℕ → ℕ → ℝ) (b : Bool) :
    setIR { s with TF_left_blocked_previous := pl, TF_right_blocked_previous := pr } hl hr b
      = setIR s hl hr b := rfl

/-- Replacing the previous-filter spectra of a state whose crossfade flag
is clear does not change the outputs of any following trace of `process`
and non-crossfading `setIR` calls (mono). -/
theorem runEvM_prevTF : ∀ (es : List EvM) (s : Conv) (pl pr : ℕ → ℕ → ℂ),
    s.interpolate = false → noFadeM es →
    (runEvM { s with TF_left_blocked_previous := pl, TF_right_blocked_previous := pr } es).2
      = (runEvM s es).2 := by
  intro es
  induction es with
  | nil => intro s pl pr h hn; rfl
  | cons e es ih =>
    intro s pl pr h hn
    cases e with
    | setIR hl hr fade =>
      have hf : fade = false := hn hl hr fade (List.mem_cons_self _ _)
      subst hf
      show (runEvM (setIR _ hl hr false) es).2 = (runEvM (setIR s hl hr false) es).2
      rw [setIR_prevTF]
    | proc x =>
      show ((process _ x).2 :: (runEvM (process _ x).1 es).2)
          = ((process s x).2 :: (runEvM (process s x).1 es).2)
      rw [process_prevTF s pl pr x h]
      exact congrArg _ (ih (process s x).1 pl pr (by simp [process])
        (fun a b c hm => hn a b c (List.mem_cons_of_mem _ hm)))

/-- Stereo analogue of `runEvM_prevTF`. -/
theorem runEvS_prevTF : ∀ (es : List EvS) (s : Conv) (pl pr : ℕ → ℕ → ℂ),
    s.interpolate = false → noFadeS es →
    (runEvS { s with TF_left_blocked_previous := pl, TF_right_blocked_previous := pr } es).2
      = (runEvS s es).2 := by
  intro es
  induction es with
  | nil => intro s pl pr h hn; rfl
  | cons e es ih =>
    intro s pl pr h hn
    cases e with
    | setIR hl hr fade =>
      have hf : fade = false := hn hl hr fade (List.mem_cons_self _ _)
      subst hf
      show (runEvS (setIR _ hl hr false) es).2 = (runEvS (setIR s hl hr false) es).2
      rw [setIR_prevTF]
    | proc x =>
      show ((processSt _ x).2 :: (runEvS (processSt _ x).1 es).2)
          = ((processSt s x).2 :: (runEvS (processSt s x).1 es).2)
      rw [processSt_prevTF s pl pr x h]
      exact congrArg _ (ih (processSt s x).1 pl pr (by simp [processSt])
        (fun a b c hm => hn a b c (List.mem_cons_of_mem _ hm)))

/-- Claim C5: every `process` call (mono or stereo) leaves `interpolate`
false, and once it is false the previous-filter spectra
`TF_*_blocked_previous` have no influence on the outputs of any following
`process` calls (interleaved with non-crossfading `setIR` calls) until a
`setIR(·, true)`: replacing them by arbitrary spectra changes no
output. -/
theorem C5_interpolate_reset_prev_unused :
    (∀ (s : Conv) (x : ℕ → ℝ), (process s x).1.interpolate = false)
    ∧ (∀ (s : Conv) (x : ℕ → ℝ × ℝ), (processSt s x).1.interpolate = false)
    ∧ (∀ (s : Conv) (pl pr : ℕ → ℕ → ℂ) (es : List EvM),
        s.interpolate = false → noFadeM es →
        (runEvM { s with TF_left_blocked_previous := pl, TF_right_blocked_previous := pr }
            es).2 = (runEvM s es).2)
    ∧ (∀ (s : Conv) (pl pr : ℕ → ℕ → ℂ) (es : List EvS),
        s.interpolate = false → noFadeS es →
        (runEvS { s with TF_left_blocked_previous := pl, TF_right_blocked_previous := pr }
            es).2 = (runEvS s es).2) :=
  ⟨fun s x => by simp [process], fun s x => by simp [processSt],
   fun s pl pr es h hn => runEvM_prevTF es s pl pr h hn,
   fun s pl pr es h hn => runEvS_prevTF es s pl pr h hn⟩

/-- The FFT of a zero filter block is zero in every bin. -/
theorem transformBlock_zero (B k : ℕ) : transformBlock B (fun _ => (0 : ℝ)) k = 0 := by
  simp [transformBlock, rfft]

theorem I_zpow_two : Complex.I ^ (2 : ℤ) = -1 := by
  rw [zpow_two, Complex.I_mul_I]

theorem I_zpow_four : Complex.I ^ (4 : ℤ) = 1 := by
  rw [show (4 : ℤ) = 2 + 2 by norm_num, zpow_add₀ Complex.I_ne_zero, I_zpow_two]
  norm_num

theorem I_zpow_six : Complex.I ^ (6 : ℤ) = -1 := by
  rw [show (6 : ℤ) = 4 + 2 by norm_num, zpow_add₀ Complex.I_ne_zero, I_zpow_four, I_zpow_two]
  norm_num

theorem I_zpow_neg_two : Complex.I ^ (-2 : ℤ) = -1 := by
  rw [zpow_neg, I_zpow_two]
  norm_num

theorem I_zpow_neg_four : Complex.I ^ (-4 : ℤ) = 1 := by
  rw [zpow_neg, I_zpow_four]
  norm_num

/-- The current left spectrum of `cexConv` is zero (zero filter). -/
theorem cexConv_TF_left_zero : ∀ k, cexConv.TF_left_blocked 0 k = 0 := by
  intro k
  have h1 : cexConv.TF_left_blocked 0 k = transformBlock 2 (zeroIR 0) k := by
    simp [cexConv, initState]
  rw [h1]
  exact transformBlock_zero 2 k

/-- The current right spectrum of `cexConv` is zero (zero filter). -/
theorem cexConv_TF_right_zero : ∀ k, cexConv.TF_right_blocked 0 k = 0 := by
  intro k
  have h1 : cexConv.TF_right_blocked 0 k = transformBlock 2 (zeroIR 0) k := by
    simp [cexConv, initState]
  rw [h1]
  exact transformBlock_zero 2 k

/-- The previous left spectrum of `cexConv` is all ones (FFT of the unit
impulse). -/
theorem cexConv_TFprev_left_one : ∀ k, cexConv.TF_left_blocked_previous 0 k = 1 := by
  intro k
  have hpad : ∀ j, j < 4 → ((fun j => if j < 2 then deltaIR 0 j else 0) j)
      = ((fun j => if j = 0 then (1 : ℝ) else 0) j) := by
    intro j hj
    interval_cases j <;> simp [deltaIR]
  have h1 : cexConv.TF_left_blocked_previous 0 k = transformBlock 2 (deltaIR 0) k := by
    simp [cexConv, initState]
  rw [h1, transformBlock, show (2 * 2 : ℕ) = 4 by norm_num,
      congrFun (rfft_congr hpad) k, rfft_delta 4 1 0 (by norm_num) k]
  simp

/-- The stored FDL bins of `cexConv` after processing a unit impulse
block: the spectrum of `(0, 0, 1, 0)`. -/
theorem cexConv_FDL_left_val : ∀ k, k ≤ 2 → (fill_buffer_mono cexConv deltaBlock).FDL_left k
    = cexp2pi 4 (-(2 * (k : ℤ))) := by
  intro k hk
  have hbufv : ∀ j, j < 4 →
      ((fun j => if 2 ≤ j then deltaBlock (j - 2) else cexConv.buffer j) j)
        = ((fun j => if j = 2 then (1 : ℝ) else 0) j) := by
    intro j hj
    interval_cases j <;> simp [deltaBlock, cexConv, initState]
  rw [congrFun (fill_buffer_mono_first_FDL_left cexConv deltaBlock rfl) k]
  show (if k < 3 then rfft 4 (fun j => if 2 ≤ j then deltaBlock (j - 2) else cexConv.buffer j) k
      else cexConv.FDL_left k) = cexp2pi 4 (-(2 * (k : ℤ)))
  rw [if_pos (by omega : k < 3), congrFun (rfft_congr hbufv) k,
      rfft_delta 4 1 2 (by norm_num) k]
  simp

/-- `irfft` of the spectrum of `(0, 0, 1, 0)` recovers 1 at sample 2. -/
theorem irfft_four_alt_val : irfft 4 (fun k => cexp2pi 4 (-(2 * (k : ℤ)))) 2 = 1 := by
  unfold irfft hermExt
  rw [Finset.sum_range_succ, Finset.sum_range_succ, Finset.sum_range_succ,
      Finset.sum_range_succ, Finset.sum_range_zero]
  norm_num [cexp2pi_four, I_zpow_two, I_zpow_four, I_zpow_six, I_zpow_neg_two,
    I_zpow_neg_four, map_neg, map_one]

/-- Claim C2, counterexample.  `cexConv` is a reachable `ConvolverFFTW`
state (`B = 2`, `K = 1`, built by `setIR(δ, false)` then `setIR(0, true)`)
whose current filter spectra are all zero — all bins `k ≤ B` of the only
partition, both ears — yet `process` applied to a unit impulse block
returns a block whose first left sample is `1 ≠ 0` (the pending crossfade
still plays out the previous filter).  This refutes the claim as stated;
it holds once the `interpolate` flag is additionally required to be
clear. -/
theorem C2_counterexample :
    cexConv.TF_left_blocked 0 0 = 0 ∧ cexConv.TF_left_blocked 0 1 = 0
    ∧ cexConv.TF_left_blocked 0 2 = 0 ∧ cexConv.TF_right_blocked 0 0 = 0
    ∧ cexConv.TF_right_blocked 0 1 = 0 ∧ cexConv.TF_right_blocked 0 2 = 0
    ∧ (process cexConv deltaBlock).2.1 0 = 1
    ∧ (process cexConv deltaBlock).2.1 0 ≠ 0 := by
  have hout : (process cexConv deltaBlock).2.1 0 = 1 := by
    rw [process, processCore_out_left_interp _ (by simp [cexConv])]
    show irfft 4 (macLoop 2 cexConv.TF_left_blocked
          (fill_buffer_mono cexConv deltaBlock).FDL_left 1 cexConv.resultLeftFreq) 2
          * crossFadeIn 2 0
        + irfft 4 (macLoop 2 cexConv.TF_left_blocked_previous
          (fill_buffer_mono cexConv deltaBlock).FDL_left 1 cexConv.resultLeftFreqPrevious) 2
          * crossFadeOut 2 0 = 1
    have hzero : irfft 4 (macLoop 2 cexConv.TF_left_blocked
        (fill_buffer_mono cexConv deltaBlock).FDL_left 1 cexConv.resultLeftFreq) 2 = 0 := by
      apply irfft_eq_zero
      intro k hk
      simp [macLoop, multiply_and_add, cexConv_TF_left_zero]
    have hprev : irfft 4 (macLoop 2 cexConv.TF_left_blocked_previous
        (fill_buffer_mono cexConv deltaBlock).FDL_left 1 cexConv.resultLeftFreqPrevious) 2
        = irfft 4 (fun k => cexp2pi 4 (-(2 * (k : ℤ)))) 2 := by
      apply irfft_congr
      intro k hk
      have hk2 : k ≤ 2 := by omega
      simp [macLoop, multiply_and_add, cexConv_TFprev_left_one, cexConv_FDL_left_val k hk2]
    rw [hzero, hprev, irfft_four_alt_val, crossFadeIn_zero 2 (by norm_num), crossFadeOut_zero]
    norm_num
  exact ⟨cexConv_TF_left_zero 0, cexConv_TF_left_zero 1, cexConv_TF_left_zero 2,
    cexConv_TF_right_zero 0, cexConv_TF_right_zero 1, cexConv_TF_right_zero 2,
    hout, by rw [hout]; exact one_ne_zero⟩

/-- A mono `process` call on a state with zero current spectra and no
pending crossfade outputs zero on both ears. -/
theorem process_out_zero (s : Conv) (x : ℕ → ℝ) (n : ℕ)
    (hK : 1 ≤ s.IR_blocks)
    (hTF : ∀ i k, i < s.IR_blocks → k ≤ s.block_size →
      s.TF_left_blocked i k = 0 ∧ s.TF_right_blocked i k = 0)
    (h : s.interpolate = false) :
    (process s x).2.1 n = 0 ∧ (process s x).2.2 n = 0 := by
  constructor
  · rw [process, processCore_out_left_noInterp _ (by simp [h])]
    simp only [fill_buffer_mono_block_size, fill_buffer_mono_IR_blocks, fill_buffer_mono_TF_left,
      fill_buffer_mono_resultLeft]
    apply irfft_eq_zero
    intro k hk
    rw [macLoop_eq_sum _ _ _ _ hK]
    refine Finset.sum_eq_zero fun i hi => ?_
    rw [(hTF i k (Finset.mem_range.mp hi) (by omega)).1, zero_mul]
  · rw [process, processCore_out_right_noInterp _ (by simp [h])]
    simp only [fill_buffer_mono_block_size, fill_buffer_mono_IR_blocks, fill_buffer_mono_TF_right,
      fill_buffer_mono_resultRight]
    apply irfft_eq_zero
    intro k hk
    rw [macLoop_eq_sum _ _ _ _ hK]
    refine Finset.sum_eq_zero fun i hi => ?_
    rw [(hTF i k (Finset.mem_range.mp hi) (by omega)).2, zero_mul]

/-- Stereo analogue of `process_out_zero`. -/
theorem processSt_out_zero (s : Conv) (x : ℕ → ℝ × ℝ) (n : ℕ)
    (hK : 1 ≤ s.IR_blocks)
    (hTF : ∀ i k, i < s.IR_blocks → k ≤ s.block_size →
      s.TF_left_blocked i k = 0 ∧ s.TF_right_blocked i k = 0)
    (h : s.interpolate = false) :
    (processSt s x).2.1 n = 0 ∧ (processSt s x).2.2 n = 0 := by
  constructor
  · rw [processSt, processCore_out_left_noInterp _ (by simp [h])]
    simp only [fill_buffer_stereo_block_size, fill_buffer_stereo_IR_blocks,
      fill_buffer_stereo_TF_left, fill_buffer_stereo_resultLeft]
    apply irfft_eq_zero
    intro k hk
    rw [macLoop_eq_sum _ _ _ _ hK]
    refine Finset.sum_eq_zero fun i hi => ?_
    rw [(hTF i k (Finset.mem_range.mp hi) (by omega)).1, zero_mul]
  · rw [processSt, processCore_out_right_noInterp _ (by simp [h])]
    simp only [fill_buffer_stereo_block_size, fill_buffer_stereo_IR_blocks,
      fill_buffer_stereo_TF_right, fill_buffer_stereo_resultRight]
    apply irfft_eq_zero
    intro k hk
    rw [macLoop_eq_sum _ _ _ _ hK]
    refine Finset.sum_eq_zero fun i hi => ?_
    rw [(hTF i k (Finset.mem_range.mp hi) (by omega)).2, zero_mul]

/-- A whole mono run from a zero-spectra, crossfade-clear state outputs
zero blocks only. -/
theorem runMono_out_zero : ∀ (xs : List (ℕ → ℝ)) (s : Conv),
    1 ≤ s.IR_blocks →
    (∀ i k, i < s.IR_blocks → k ≤ s.block_size →
      s.TF_left_blocked i k = 0 ∧ s.TF_right_blocked i k = 0) →
    s.interpolate = false →
    ∀ out ∈ (runMono s xs).2, ∀ n, out.1 n = 0 ∧ out.2 n = 0 := by
  intro xs
  induction xs with
  | nil => intro s _ _ _ out hout n; simp [runMono] at hout
  | cons x xs ih =>
    intro s hK hTF h out hout n
    have hout2 : out = (process s x).2 ∨ out ∈ (runMono (process s x).1 xs).2 := by
      simpa [runMono] using hout
    rcases hout2 with rfl | hmem
    · exact process_out_zero s x n hK hTF h
    · refine ih (process s x).1 ?_ ?_ ?_ out hmem n
      · simpa [process] using hK
      · intro i k hi hk
        have hv := hTF i k (by simpa [process] using hi) (by simpa [process] using hk)
        simpa [process] using hv
      · simp [process]

/-- Stereo analogue of `runMono_out_zero`. -/
theorem runStereo_out_zero : ∀ (xs : List (ℕ → ℝ × ℝ)) (s : Conv),
    1 ≤ s.IR_blocks →
    (∀ i k, i < s.IR_blocks → k ≤ s.block_size →
      s.TF_left_blocked i k = 0 ∧ s.TF_right_blocked i k = 0) →
    s.interpolate = false →
    ∀ out ∈ (runStereo s xs).2, ∀ n, out.1 n = 0 ∧ out.2 n = 0 := by
  intro xs
  induction xs with
  | nil => intro s _ _ _ out hout n; simp [runStereo] at hout
  | cons x xs ih =>
    intro s hK hTF h out hout n
    have hout2 : out = (processSt s x).2 ∨ out ∈ (runStereo (processSt s x).1 xs).2 := by
      simpa [runStereo] using hout
    rcases hout2 with rfl | hmem
    · exact processSt_out_zero s x n hK hTF h
    · refine ih (processSt s x).1 ?_ ?_ ?_ out hmem n
      · simpa [processSt] using hK
      · intro i k hi hk
        have hv := hTF i k (by simpa [processSt] using hi) (by simpa [processSt] using hk)
        simpa [processSt] using hv
      · simp [processSt]

/-- Claim C2, amended.  A convolver (mono or stereo mode, at least one
filter partition) whose current spectra `TF_left_blocked` /
`TF_right_blocked` are all zero and whose `interpolate` flag is clear —
e.g. a freshly constructed convolver on which `setIR` was never called —
returns all-zero output blocks for both ears on every `process` call of
every input sequence. -/
theorem C2_zero_filter_silence :
    (∀ (s : Conv) (xs : List (ℕ → ℝ)) (out : (ℕ → ℝ) × (ℕ → ℝ)) (n : ℕ),
      1 ≤ s.IR_blocks →
      (∀ i k, i < s.IR_blocks → k ≤ s.block_size →
        s.TF_left_blocked i k = 0 ∧ s.TF_right_blocked i k = 0) →
      s.interpolate = false →
      out ∈ (runMono s xs).2 → out.1 n = 0 ∧ out.2 n = 0)
    ∧ (∀ (s : Conv) (xs : List (ℕ → ℝ × ℝ)) (out : (ℕ → ℝ) × (ℕ → ℝ)) (n : ℕ),
      1 ≤ s.IR_blocks →
      (∀ i k, i < s.IR_blocks → k ≤ s.block_size →
        s.TF_left_blocked i k = 0 ∧ s.TF_right_blocked i k = 0) →
      s.interpolate = false →
      out ∈ (runStereo s xs).2 → out.1 n = 0 ∧ out.2 n = 0) :=
  ⟨fun s xs out n hK hTF h hout => runMono_out_zero xs s hK hTF h out hout n,
   fun s xs out n hK hTF h hout => runStereo_out_zero xs s hK hTF h out hout n⟩

/-- Witness for C2 at a concrete input: a fresh convolver (`B = 2`,
`K = 1`) fed one all-ones block. -/
theorem C2_zero_filter_silence_witness :
    ((process (initState 2 2) (fun _ => 1)).2.1 0 = 0
      ∧ (process (initState 2 2) (fun _ => 1)).2.2 0 = 0)
    ∧ ((processSt (initState 2 2) (fun _ => (1, 1))).2.1 0 = 0
      ∧ (processSt (initState 2 2) (fun _ => (1, 1))).2.2 0 = 0) :=
  ⟨C2_zero_filter_silence.1 (initState 2 2) [fun _ => 1]
      (process (initState 2 2) (fun _ => 1)).2 0 (by norm_num [initState])
      (fun i k _ _ => ⟨rfl, rfl⟩) rfl (by simp [runMono]),
   C2_zero_filter_silence.2 (initState 2 2) [fun _ => (1, 1)]
      (processSt (initState 2 2) (fun _ => (1, 1))).2 0 (by norm_num [initState])
      (fun i k _ _ => ⟨rfl, rfl⟩) rfl (by simp [runStereo])⟩

/-- Witness for C5 at a concrete input: a fresh convolver, one `process`
call, the previous spectra replaced by all-ones. -/
theorem C5_interpolate_reset_prev_unused_witness :
    (process (initState 4 2) (fun _ => 0)).1.interpolate = false
    ∧ (runEvM { initState 4 2 with TF_left_blocked_previous := fun _ _ => 1, TF_right_blocked_previous := fun _ _ => 1 }
        [EvM.proc (fun _ => 0)]).2
      = (runEvM (initState 4 2) [EvM.proc (fun _ => 0)]).2 :=
  ⟨C5_interpolate_reset_prev_unused.1 (initState 4 2) (fun _ => 0),
   C5_interpolate_reset_prev_unused.2.2.1 (initState 4 2) (fun _ _ => 1) (fun _ _ => 1)
     [EvM.proc (fun _ => 0)] rfl (fun a b c hm => by simp at hm)⟩

theorem audioEq_refl (s : Conv) : audioEq s s :=
  ⟨rfl, rfl, rfl, rfl, rfl, rfl, rfl⟩

/-- The mono fill preserves audio agreement. -/
theorem audioEq_fill_mono {s t : Conv} (h : audioEq s t) (x : ℕ → ℝ) :
    audioEq (fill_buffer_mono s x) (fill_buffer_mono t x) := by
  obtain ⟨h1, h2, h3, h3b, h5, h6, h4⟩ := h
  have hc := fill_buffer_mono_audio_congr x h1 h2 h3 h4 h5 h6
  exact ⟨by simp [h1], by simp [h2], hc.1, by simp [h3b], hc.2.1, hc.2.2, by simp [h4]⟩

/-- The stereo fill preserves audio agreement. -/
theorem audioEq_fill_stereo {s t : Conv} (h : audioEq s t) (x : ℕ → ℝ × ℝ) :
    audioEq (fill_buffer_stereo s x) (fill_buffer_stereo t x) := by
  obtain ⟨h1, h2, h3, h3b, h5, h6, h4⟩ := h
  have hc := fill_buffer_stereo_audio_congr x h1 h2 h3 h3b h4 h5 h6
  exact ⟨by simp [h1], by simp [h2], hc.1, hc.2.1, hc.2.2.1, hc.2.2.2, by simp [h4]⟩

/-- A mono `process` call evolves the audio data independently of the
installed filters, the accumulators and the crossfade flag. -/
theorem audioEq_process {s t : Conv} (h : audioEq s t) (x : ℕ → ℝ) :
    audioEq (process s x).1 (process t x).1 := by
  obtain ⟨g1, g2, g3, g3b, g5, g6, g4⟩ := audioEq_fill_mono h x
  obtain ⟨h1, h2, h3, h3b, h5, h6, h4⟩ := h
  exact ⟨by simp [process, h1], by simp [process, h2], by simpa [process] using g3,
    by simp [process, h3b], by simpa [process] using g5, by simpa [process] using g6,
    by simp [process, h4]⟩

/-- Stereo analogue of `audioEq_process`. -/
theorem audioEq_processSt {s t : Conv} (h : audioEq s t) (x : ℕ → ℝ × ℝ) :
    audioEq (processSt s x).1 (processSt t x).1 := by
  obtain ⟨g1, g2, g3, g3b, g5, g6, g4⟩ := audioEq_fill_stereo h x
  obtain ⟨h1, h2, h3, h3b, h5, h6, h4⟩ := h
  exact ⟨by simp [processSt, h1], by simp [processSt, h2], by simpa [processSt] using g3,
    by simpa [processSt] using g3b, by simpa [processSt] using g5,
    by simpa [processSt] using g6, by simp [processSt, h4]⟩

/-- Without a pending crossfade and with at least one partition, the
outputs of a mono `process` call depend only on the audio data and the
current filter spectra. -/
theorem process_out_congr {s t : Conv} (x : ℕ → ℝ) (h : audioEq s t)
    (hTl : s.TF_left_blocked = t.TF_left_blocked)
    (hTr : s.TF_right_blocked = t.TF_right_blocked)
    (his : s.interpolate = false) (hit : t.interpolate = false)
    (hK : 1 ≤ s.IR_blocks) :
    (process s x).2 = (process t x).2 := by
  obtain ⟨h1, h2, h3, h3b, h5, h6, h4⟩ := h
  have hc := fill_buffer_mono_audio_congr x h1 h2 h3 h4 h5 h6
  have hK2 : 1 ≤ t.IR_blocks := h2 ▸ hK
  refine Prod.ext ?_ ?_
  · rw [process, process, processCore_out_left_noInterp _ (by simp [his]),
        processCore_out_left_noInterp _ (by simp [hit])]
    simp only [fill_buffer_mono_block_size, fill_buffer_mono_IR_blocks, fill_buffer_mono_TF_left,
      fill_buffer_mono_resultLeft]
    rw [macLoop_eq_sum _ _ _ _ hK, macLoop_eq_sum _ _ _ _ hK2, h1, h2, hTl, hc.2.1]
  · rw [process, process, processCore_out_right_noInterp _ (by simp [his]),
        processCore_out_right_noInterp _ (by simp [hit])]
    simp only [fill_buffer_mono_block_size, fill_buffer_mono_IR_blocks, fill_buffer_mono_TF_right,
      fill_buffer_mono_resultRight]
    rw [macLoop_eq_sum _ _ _ _ hK, macLoop_eq_sum _ _ _ _ hK2, h1, h2, hTr, hc.2.2]

/-- Stereo analogue of `process_out_congr`. -/
theorem processSt_out_congr {s t : Conv} (x : ℕ → ℝ × ℝ) (h : audioEq s t)
    (hTl : s.TF_left_blocked = t.TF_left_blocked)
    (hTr : s.TF_right_blocked = t.TF_right_blocked)
    (his : s.interpolate = false) (hit : t.interpolate = false)
    (hK : 1 ≤ s.IR_blocks) :
    (processSt s x).2 = (processSt t x).2 := by
  obtain ⟨h1, h2, h3, h3b, h5, h6, h4⟩ := h
  have hc := fill_buffer_stereo_audio_congr x h1 h2 h3 h3b h4 h5 h6
  have hK2 : 1 ≤ t.IR_blocks := h2 ▸ hK
  refine Prod.ext ?_ ?_
  · rw [processSt, processSt, processCore_out_left_noInterp _ (by simp [his]),
        processCore_out_left_noInterp _ (by simp [hit])]
    simp only [fill_buffer_stereo_block_size, fill_buffer_stereo_IR_blocks,
      fill_buffer_stereo_TF_left, fill_buffer_stereo_resultLeft]
    rw [macLoop_eq_sum _ _ _ _ hK, macLoop_eq_sum _ _ _ _ hK2, h1, h2, hTl, hc.2.2.1]
  · rw [processSt, processSt, processCore_out_right_noInterp _ (by simp [his]),
        processCore_out_right_noInterp _ (by simp [hit])]
    simp only [fill_buffer_stereo_block_size, fill_buffer_stereo_IR_blocks,
      fill_buffer_stereo_TF_right, fill_buffer_stereo_resultRight]
    rw [macLoop_eq_sum _ _ _ _ hK, macLoop_eq_sum _ _ _ _ hK2, h1, h2, hTr, hc.2.2.2]

/-- A mono block run does not change the installed filters or the
sizes. -/
theorem runMono_preserve : ∀ (xs : List (ℕ → ℝ)) (s : Conv),
    (runMono s xs).1.TF_left_blocked = s.TF_left_blocked
    ∧ (runMono s xs).1.TF_right_blocked = s.TF_right_blocked
    ∧ (runMono s xs).1.block_size = s.block_size
    ∧ (runMono s xs).1.IR_blocks = s.IR_blocks := by
  intro xs
  induction xs with
  | nil => intro s; exact ⟨rfl, rfl, rfl, rfl⟩
  | cons x xs ih =>
    intro s
    have h := ih (process s x).1
    exact ⟨h.1.trans (by simp [process]), h.2.1.trans (by simp [process]),
      h.2.2.1.trans (by simp [process]), h.2.2.2.trans (by simp [process])⟩

/-- Stereo analogue of `runMono_preserve`. -/
theorem runStereo_preserve : ∀ (xs : List (ℕ → ℝ × ℝ)) (s : Conv),
    (runStereo s xs).1.TF_left_blocked = s.TF_left_blocked
    ∧ (runStereo s xs).1.TF_right_blocked = s.TF_right_blocked
    ∧ (runStereo s xs).1.block_size = s.block_size
    ∧ (runStereo s xs).1.IR_blocks = s.IR_blocks := by
  intro xs
  induction xs with
  | nil => intro s; exact ⟨rfl, rfl, rfl, rfl⟩
  | cons x xs ih =>
    intro s
    have h := ih (processSt s x).1
    exact ⟨h.1.trans (by simp [processSt]), h.2.1.trans (by simp [processSt]),
      h.2.2.1.trans (by simp [processSt]), h.2.2.2.trans (by simp [processSt])⟩

/-- A mono block run keeps a clear crossfade flag clear. -/
theorem runMono_interpolate_false : ∀ (xs : List (ℕ → ℝ)) (s : Conv),
    s.interpolate = false → (runMono s xs).1.interpolate = false := by
  intro xs
  induction xs with
  | nil => intro s h; exact h
  | cons x xs ih => intro s _; exact ih (process s x).1 (by simp [process])

/-- Stereo analogue of `runMono_interpolate_false`. -/
theorem runStereo_interpolate_false : ∀ (xs : List (ℕ → ℝ × ℝ)) (s : Conv),
    s.interpolate = false → (runStereo s xs).1.interpolate = false := by
  intro xs
  induction xs with
  | nil => intro s h; exact h
  | cons x xs ih => intro s _; exact ih (processSt s x).1 (by simp [processSt])

/-- A mono call trace does not change the sizes. -/
theorem runEvM_preserve : ∀ (es : List EvM) (s : Conv),
    (runEvM s es).1.block_size = s.block_size
    ∧ (runEvM s es).1.IR_blocks = s.IR_blocks := by
  intro es
  induction es with
  | nil => intro s; exact ⟨rfl, rfl⟩
  | cons e es ih =>
    intro s
    cases e with
    | setIR hl hr fade =>
      have h := ih (setIR s hl hr fade)
      exact ⟨h.1.trans (by simp), h.2.trans (by simp)⟩
    | proc x =>
      have h := ih (process s x).1
      exact ⟨h.1.trans (by simp [process]), h.2.trans (by simp [process])⟩

/-- A stereo call trace does not change the sizes. -/
theorem runEvS_preserve : ∀ (es : List EvS) (s : Conv),
    (runEvS s es).1.block_size = s.block_size
    ∧ (runEvS s es).1.IR_blocks = s.IR_blocks := by
  intro es
  induction es with
  | nil => intro s; exact ⟨rfl, rfl⟩
  | cons e es ih =>
    intro s
    cases e with
    | setIR hl hr fade =>
      have h := ih (setIR s hl hr fade)
      exact ⟨h.1.trans (by simp), h.2.trans (by simp)⟩
    | proc x =>
      have h := ih (processSt s x).1
      exact ⟨h.1.trans (by simp [processSt]), h.2.trans (by simp [processSt])⟩

/-- The audio data after any mono call trace agrees with the audio data
after processing just its input blocks (the `setIR` calls are
invisible). -/
theorem runEvM_audio : ∀ (es : List EvM) (s t : Conv), audioEq s t →
    audioEq (runEvM s es).1 (runMono t (procInputsM es)).1 := by
  intro es
  induction es with
  | nil => intro s t h; exact h
  | cons e es ih =>
    intro s t h
    cases e with
    | setIR hl hr fade => exact ih (setIR s hl hr fade) t h
    | proc x => exact ih (process s x).1 (process t x).1 (audioEq_process h x)

/-- Stereo analogue of `runEvM_audio`. -/
theorem runEvS_audio : ∀ (es : List EvS) (s t : Conv), audioEq s t →
    audioEq (runEvS s es).1 (runStereo t (procInputsS es)).1 := by
  intro es
  induction es with
  | nil => intro s t h; exact h
  | cons e es ih =>
    intro s t h
    cases e with
    | setIR hl hr fade => exact ih (setIR s hl hr fade) t h
    | proc x => exact ih (processSt s x).1 (processSt t x).1 (audioEq_processSt h x)

/-- Claim C3: after any trace of API calls whose `process` inputs were
`x_1 .. x_{t-1}`, installing a filter with `setIR(h, false)` and
processing `x_t` returns exactly the block a fresh convolver would return
after `setIR(h, false)` and the same input history `x_1 .. x_t`
(mono and stereo modes; at least one partition). -/
theorem C3_no_crossfade_history_independent :
    (∀ (ir_size block_size : ℕ) (es : List EvM) (hl hr : ℕ → ℕ → ℝ) (x : ℕ → ℝ),
      1 ≤ (initState ir_size block_size).IR_blocks →
      (process (setIR (runEvM (initState ir_size block_size) es).1 hl hr false) x).2
        = (process (runMono (setIR (initState ir_size block_size) hl hr false)
            (procInputsM es)).1 x).2)
    ∧ (∀ (ir_size block_size : ℕ) (es : List EvS) (hl hr : ℕ → ℕ → ℝ) (x : ℕ → ℝ × ℝ),
      1 ≤ (initState ir_size block_size).IR_blocks →
      (processSt (setIR (runEvS (initState ir_size block_size) es).1 hl hr false) x).2
        = (processSt (runStereo (setIR (initState ir_size block_size) hl hr false)
            (procInputsS es)).1 x).2) := by
  constructor
  · intro ir B es hl hr x hK
    have ha := runEvM_audio es (initState ir B) (setIR (initState ir B) hl hr false)
      (audioEq_refl _)
    refine process_out_congr x ha ?_ ?_ rfl
      (runMono_interpolate_false _ _ rfl) ?_
    · rw [(runMono_preserve _ _).1]
      simp only [setIR_TF_left]
      rw [(runEvM_preserve es _).1, (runEvM_preserve es _).2]
    · rw [(runMono_preserve _ _).2.1]
      simp only [setIR_TF_right]
      rw [(runEvM_preserve es _).1, (runEvM_preserve es _).2]
    · simpa using (runEvM_preserve es (initState ir B)).2 ▸ hK
  · intro ir B es hl hr x hK
    have ha := runEvS_audio es (initState ir B) (setIR (initState ir B) hl hr false)
      (audioEq_refl _)
    refine processSt_out_congr x ha ?_ ?_ rfl
      (runStereo_interpolate_false _ _ rfl) ?_
    · rw [(runStereo_preserve _ _).1]
      simp only [setIR_TF_left]
      rw [(runEvS_preserve es _).1, (runEvS_preserve es _).2]
    · rw [(runStereo_preserve _ _).2.1]
      simp only [setIR_TF_right]
      rw [(runEvS_preserve es _).1, (runEvS_preserve es _).2]
    · simpa using (runEvS_preserve es (initState ir B)).2 ▸ hK

/-- Witness for C3 at a concrete input: `B = 2`, one partition, an empty
history, the zero filter and a unit impulse block. -/
theorem C3_no_crossfade_history_independent_witness :
    ((process (setIR (runEvM (initState 2 2) []).1 zeroIR zeroIR false) deltaBlock).2
      = (process (runMono (setIR (initState 2 2) zeroIR zeroIR false) (procInputsM [])).1
          deltaBlock).2)
    ∧ ((processSt (setIR (runEvS (initState 2 2) []).1 zeroIR zeroIR false)
          (fun _ => (1, 1))).2
      = (processSt (runStereo (setIR (initState 2 2) zeroIR zeroIR false) (procInputsS [])).1
          (fun _ => (1, 1))).2) :=
  ⟨C3_no_crossfade_history_independent.1 2 2 [] zeroIR zeroIR deltaBlock
     (by norm_num [initState]),
   C3_no_crossfade_history_independent.2 2 2 [] zeroIR zeroIR (fun _ => (1, 1))
     (by norm_num [initState])⟩

/-- Splitting a mono block run at an append. -/
theorem runMono_append (s : Conv) (xs ys : List (ℕ → ℝ)) :
    runMono s (xs ++ ys)
      = ((runMono (runMono s xs).1 ys).1,
         (runMono s xs).2 ++ (runMono (runMono s xs).1 ys).2) := by
  induction xs generalizing s with
  | nil => simp [runMono]
  | cons x xs ih => simp [runMono, ih]

/-- `np.roll` with a negative shift, below the wrap-around. -/
theorem nroll_neg {α : Type} (n d : ℕ) (f : ℕ → α) (j : ℕ) (h : j + d < n) :
    nroll n (-(d : ℤ)) f j = f (j + d) := by
  unfold nroll
  have h1 : ((j : ℤ) - -(d : ℤ)) = ((j + d : ℕ) : ℤ) := by push_cast; ring
  rw [h1, Int.emod_eq_of_lt (Int.natCast_nonneg _) (by exact_mod_cast h), Int.toNat_natCast]

/-- `np.roll` with a positive shift, above the wrap-around. -/
theorem nroll_ge {α : Type} (n d : ℕ) (f : ℕ → α) (j : ℕ) (h1 : d ≤ j) (h2 : j < n) :
    nroll n (d : ℤ) f j = f (j - d) := by
  unfold nroll
  have e : ((j : ℤ) - (d : ℤ)) = ((j - d : ℕ) : ℤ) := (Nat.cast_sub h1).symm
  rw [e, Int.emod_eq_of_lt (Int.natCast_nonneg _) (by exact_mod_cast (by omega : j - d < n)),
      Int.toNat_natCast]

/-- `np.roll` by `B + 1` (the FDL slot shift), above the wrap-around. -/
theorem nroll_succ_ge {α : Type} (n B : ℕ) (f : ℕ → α) (j : ℕ) (h1 : B + 1 ≤ j)
    (h2 : j < n) : nroll n ((B : ℤ) + 1) f j = f (j - (B + 1)) := by
  have e : ((B : ℤ) + 1) = ((B + 1 : ℕ) : ℤ) := by push_cast; ring
  rw [e]
  exact nroll_ge n (B + 1) f j h1 h2

/-- After a non-first `process` call the buffer holds the previous back
half in front and the new block in the back. -/
theorem process_buffer_later (s : Conv) (x : ℕ → ℝ) (h : ¬ s.processCounter = 0)
    (j : ℕ) (hj : j < 2 * s.block_size) :
    (process s x).1.buffer j
      = if s.block_size ≤ j then x (j - s.block_size) else s.buffer (j + s.block_size) := by
  rw [process, processCore_buffer, congrFun (fill_buffer_mono_later_buffer s x h) j]
  by_cases hBj : s.block_size ≤ j
  · rw [if_pos ⟨hBj, hj⟩, if_pos hBj]
  · rw [if_neg (fun hc => hBj hc.1), if_neg hBj, nroll_neg _ _ _ _ (by omega)]

/-- After every `process` call, the first `B + 1` bins of both FDLs hold
the spectrum of the (new) input buffer. -/
theorem process_FDL_spectrum (s : Conv) (x : ℕ → ℝ) (k : ℕ) (hk : k < s.block_size + 1) :
    (process s x).1.FDL_left k = rfft (2 * s.block_size) ((process s x).1.buffer) k
    ∧ (process s x).1.FDL_right k = rfft (2 * s.block_size) ((process s x).1.buffer) k := by
  rw [process, processCore_FDL_left, processCore_FDL_right, processCore_buffer]
  by_cases h0 : s.processCounter = 0
  · rw [congrFun (fill_buffer_mono_first_FDL_left s x h0) k,
        congrFun (fill_buffer_mono_first_FDL_right s x h0) k,
        fill_buffer_mono_first_buffer s x h0, if_pos hk, if_pos hk]
    exact ⟨rfl, rfl⟩
  · rw [congrFun (fill_buffer_mono_later_FDL_left s x h0) k,
        congrFun (fill_buffer_mono_later_FDL_right s x h0) k,
        fill_buffer_mono_later_buffer s x h0, if_pos hk, if_pos hk]
    exact ⟨rfl, rfl⟩

/-- After a non-first `process` call, FDL slot `i ≥ 1` holds the previous
contents of slot `i - 1`. -/
theorem process_FDL_shift (s : Conv) (x : ℕ → ℝ) (h : ¬ s.processCounter = 0)
    (i k : ℕ) (hi1 : 1 ≤ i) (hi2 : i < s.IR_blocks) (hk : k ≤ s.block_size) :
    (process s x).1.FDL_left (i * (s.block_size + 1) + k)
        = s.FDL_left ((i - 1) * (s.block_size + 1) + k)
    ∧ (process s x).1.FDL_right (i * (s.block_size + 1) + k)
        = s.FDL_right ((i - 1) * (s.block_size + 1) + k) := by
  obtain ⟨n, rfl⟩ : ∃ n, i = n + 1 := ⟨i - 1, by omega⟩
  have hmul : (n + 1) * (s.block_size + 1) = n * (s.block_size + 1) + (s.block_size + 1) :=
    Nat.succ_mul _ _
  have hge : s.block_size + 1 ≤ (n + 1) * (s.block_size + 1) + k := by
    rw [hmul]
    generalize n * (s.block_size + 1) = m
    omega
  have hlt : (n + 1) * (s.block_size + 1) + k < s.IR_blocks * (s.block_size + 1) := by
    have h3 : (n + 1 + 1) * (s.block_size + 1) ≤ s.IR_blocks * (s.block_size + 1) :=
      Nat.mul_le_mul_right _ (by omega)
    rw [Nat.succ_mul (n + 1)] at h3
    generalize (n + 1) * (s.block_size + 1) = m at h3 ⊢
    omega
  have hnot : ¬ (n + 1) * (s.block_size + 1) + k < s.block_size + 1 := by
    rw [hmul]
    generalize n * (s.block_size + 1) = m
    omega
  have hidx : (n + 1) * (s.block_size + 1) + k - (s.block_size + 1)
      = n * (s.block_size + 1) + k := by
    rw [hmul]
    generalize n * (s.block_size + 1) = m
    omega
  have hsimp : (n + 1 - 1) * (s.block_size + 1) + k = n * (s.block_size + 1) + k := by
    rw [Nat.add_sub_cancel]
  constructor
  · rw [process, processCore_FDL_left, congrFun (fill_buffer_mono_later_FDL_left s x h) _,
        if_neg hnot, nroll_succ_ge _ _ _ _ hge hlt, hidx, hsimp]
  · rw [process, processCore_FDL_right, congrFun (fill_buffer_mono_later_FDL_right s x h) _,
        if_neg hnot, nroll_succ_ge _ _ _ _ hge hlt, hidx, hsimp]

/-- Appending a new block shifts the overlap-save windows by one slot. -/
theorem bufAt_append (B : ℕ) (xs : List (ℕ → ℝ)) (x : ℕ → ℝ) (i : ℕ)
    (hi1 : 1 ≤ i) (hi2 : i ≤ xs.length) :
    bufAt B (xs ++ [x]) i = bufAt B xs (i - 1) := by
  funext j
  simp only [bufAt, List.length_append, List.length_singleton]
  have e1 : xs.length + 1 - 1 - i = xs.length - 1 - (i - 1) := by omega
  have e2 : xs.length + 1 - 2 - i = xs.length - 2 - (i - 1) := by omega
  rw [e1, e2]
  by_cases hjB : j < B
  · rw [if_pos hjB, if_pos hjB]
    by_cases hz : xs.length - 1 - (i - 1) = 0
    · rw [if_pos hz, if_pos hz]
    · rw [if_neg hz, if_neg hz, List.getD_append _ _ _ _ (by omega)]
  · rw [if_neg hjB, if_neg hjB, List.getD_append _ _ _ _ (by omega)]

/-- The newest overlap-save window after appending a block: back half the
new block, front half the previous back half. -/
theorem bufAt_append_zero (B : ℕ) (xs : List (ℕ → ℝ)) (x : ℕ → ℝ)
    (hlen : 1 ≤ xs.length) (j : ℕ) :
    bufAt B (xs ++ [x]) 0 j = if B ≤ j then x (j - B) else bufAt B xs 0 (j + B) := by
  simp only [bufAt, List.length_append, List.length_singleton]
  by_cases hjB : B ≤ j
  · rw [if_pos hjB, if_neg (by omega : ¬ j < B)]
    have e : xs.length + 1 - 1 - 0 = xs.length := by omega
    rw [e, List.getD_append_right _ _ _ _ (le_refl _)]
    simp
  · rw [if_neg hjB, if_pos (by omega : j < B), if_neg (by omega : ¬ xs.length + 1 - 1 - 0 = 0),
        if_neg (by omega : ¬ j + B < B)]
    have e1 : xs.length + 1 - 2 - 0 = xs.length - 1 - 0 := by omega
    have e2 : j + B - B = j := by omega
    rw [e1, e2, List.getD_append _ _ _ _ (by omega)]

/-- Overlap-save invariant of a fresh mono convolver (`ir_size = K·B`):
after processing the blocks `xs` (at least one), the counter equals the
number of blocks, the buffer holds the newest window, and FDL slot
`i < min(t, K)` of both delay lines holds the spectrum of window `i`
(the block processed `i` calls ago with its predecessor in front). -/
theorem runMono_overlap_inv (B K : ℕ) (hB : 1 ≤ B) (_hK : 1 ≤ K) :
    ∀ (xs : List (ℕ → ℝ)), 1 ≤ xs.length →
    (runMono (initState (K * B) B) xs).1.processCounter = xs.length
    ∧ (∀ j, j < 2 * B → (runMono (initState (K * B) B) xs).1.buffer j = bufAt B xs 0 j)
    ∧ (∀ i k, i < min xs.length K → k ≤ B →
        (runMono (initState (K * B) B) xs).1.FDL_left (i * (B + 1) + k)
            = rfft (2 * B) (bufAt B xs i) k
        ∧ (runMono (initState (K * B) B) xs).1.FDL_right (i * (B + 1) + k)
            = rfft (2 * B) (bufAt B xs i) k) := by
  intro xs
  induction xs using List.reverseRecOn with
  | nil => intro h; simp at h
  | append_singleton xs x ih =>
    intro _
    have hst : (runMono (initState (K * B) B) (xs ++ [x])).1
        = (process (runMono (initState (K * B) B) xs).1 x).1 := by
      rw [runMono_append]
      rfl
    have hbs : (runMono (initState (K * B) B) xs).1.block_size = B :=
      (runMono_preserve xs _).2.2.1
    have hirb : (runMono (initState (K * B) B) xs).1.IR_blocks = K := by
      have h1 := (runMono_preserve xs (initState (K * B) B)).2.2.2
      rw [h1]
      show K * B / B = K
      exact Nat.mul_div_cancel _ hB
    by_cases hxs : xs.length = 0
    · -- base case: the first processed block
      have hxs' : xs = [] := List.length_eq_zero.mp hxs
      subst hxs'
      have hbufnew : ∀ j, j < 2 * B →
          (runMono (initState (K * B) B) ([] ++ [x])).1.buffer j = bufAt B ([] ++ [x]) 0 j := by
        intro j hj
        rw [hst,
            show (process (runMono (initState (K * B) B) []).1 x).1.buffer
              = (fill_buffer_mono (runMono (initState (K * B) B) []).1 x).buffer from rfl,
            congrFun (fill_buffer_mono_first_buffer _ x rfl) j]
        show (if B ≤ j then x (j - B) else (0 : ℝ)) = bufAt B ([] ++ [x]) 0 j
        simp only [bufAt, List.nil_append, List.length_singleton]
        by_cases hjB : B ≤ j
        · rw [if_pos hjB, if_neg (by omega : ¬ j < B)]
          simp
        · rw [if_neg hjB, if_pos (by omega : j < B)]
          simp
      refine ⟨?_, hbufnew, ?_⟩
      · rw [hst]
        simp [process, runMono, initState]
      · intro i k hi hk
        have hi0 : i = 0 := by
          have h2 := (lt_min_iff.mp hi).1
          simp at h2
          omega
        subst hi0
        have hsp := process_FDL_spectrum (runMono (initState (K * B) B) []).1 x k
          (by rw [hbs]; omega)
        rw [hbs] at hsp
        have hidx : 0 * (B + 1) + k = k := by omega
        rw [hst, hidx]
        constructor
        · rw [hsp.1]
          refine congrFun (rfft_congr fun j hj => ?_) k
          rw [← hst]
          exact hbufnew j hj
        · rw [hsp.2]
          refine congrFun (rfft_congr fun j hj => ?_) k
          rw [← hst]
          exact hbufnew j hj
    · -- inductive case
      have hlen : 1 ≤ xs.length := by omega
      obtain ⟨hcnt, hbuf, hFDL⟩ := ih hlen
      have hcnt0 : ¬ (runMono (initState (K * B) B) xs).1.processCounter = 0 := by
        rw [hcnt]; omega
      have hbufnew : ∀ j, j < 2 * B →
          (runMono (initState (K * B) B) (xs ++ [x])).1.buffer j = bufAt B (xs ++ [x]) 0 j := by
        intro j hj
        rw [hst]
        have hb := process_buffer_later (runMono (initState (K * B) B) xs).1 x hcnt0 j
          (by rw [hbs]; omega)
        rw [hbs] at hb
        rw [hb, bufAt_append_zero B xs x hlen j]
        by_cases hjB : B ≤ j
        · rw [if_pos hjB, if_pos hjB]
        · rw [if_neg hjB, if_neg hjB]
          exact hbuf (j + B) (by omega)
      refine ⟨?_, hbufnew, ?_⟩
      · rw [hst, show (process (runMono (initState (K * B) B) xs).1 x).1.processCounter
            = (runMono (initState (K * B) B) xs).1.processCounter + 1 by simp [process], hcnt]
        simp
      · intro i k hi hk
        have hia : i < (xs ++ [x]).length := (lt_min_iff.mp hi).1
        have hib : i < K := (lt_min_iff.mp hi).2
        rw [List.length_append, List.length_singleton] at hia
        by_cases hi0 : i = 0
        · subst hi0
          have hsp := process_FDL_spectrum (runMono (initState (K * B) B) xs).1 x k
            (by rw [hbs]; omega)
          rw [hbs] at hsp
          have hidx : 0 * (B + 1) + k = k := by omega
          rw [hst, hidx]
          constructor
          · rw [hsp.1]
            refine congrFun (rfft_congr fun j hj => ?_) k
            rw [← hst]
            exact hbufnew j hj
          · rw [hsp.2]
            refine congrFun (rfft_congr fun j hj => ?_) k
            rw [← hst]
            exact hbufnew j hj
        · have hi1 : 1 ≤ i := by omega
          have hsh := process_FDL_shift (runMono (initState (K * B) B) xs).1 x hcnt0 i k
            hi1 (by rw [hirb]; exact hib) (by rw [hbs]; exact hk)
          rw [hbs] at hsh
          have hIH := hFDL (i - 1) k (lt_min_iff.mpr ⟨by omega, by omega⟩) hk
          have hba := bufAt_append B xs x i hi1 (by omega)
          rw [hst]
          constructor
          · rw [hsh.1, hIH.1, hba]
          · rw [hsh.2, hIH.2, hba]

/-- Claim C4: after the `t`-th `process` call of a fresh mono convolver
(`ir_size = K·B`, `t = |xs| ≥ 1`), FDL slot `i < min(t, K)` of both
`FDL_left` and `FDL_right` (bins `k ≤ B` at flat offset `i·(B+1)+k`)
equals the length-`2B` real FFT of the overlap-save window whose first
half is the block before the block processed `i` calls ago (zeros when
there is none, e.g. slot 0 at `t = 1`) and whose second half is the block
processed `i` calls ago (slot 0: the block just processed). -/
theorem C4_FDL_holds_recent_spectra (B K : ℕ) (xs : List (ℕ → ℝ)) (i k : ℕ)
    (hB : 1 ≤ B) (hK : 1 ≤ K) (ht : 1 ≤ xs.length) (hi : i < min xs.length K)
    (hk : k ≤ B) :
    (runMono (initState (K * B) B) xs).1.FDL_left (i * (B + 1) + k)
        = rfft (2 * B) (bufAt B xs i) k
    ∧ (runMono (initState (K * B) B) xs).1.FDL_right (i * (B + 1) + k)
        = rfft (2 * B) (bufAt B xs i) k :=
  (runMono_overlap_inv B K hB hK xs ht).2.2 i k hi hk

/-- Witness for C4 at a concrete input: `B = 1`, `K = 1`, one unit impulse
block, slot 0, bin 0. -/
theorem C4_FDL_holds_recent_spectra_witness :
    (runMono (initState (1 * 1) 1) [deltaBlock]).1.FDL_left (0 * (1 + 1) + 0)
        = rfft (2 * 1) (bufAt 1 [deltaBlock] 0) 0
    ∧ (runMono (initState (1 * 1) 1) [deltaBlock]).1.FDL_right (0 * (1 + 1) + 0)
        = rfft (2 * 1) (bufAt 1 [deltaBlock] 0) 0 :=
  C4_FDL_holds_recent_spectra 1 1 [deltaBlock] 0 0 (by norm_num) (by norm_num)
    (by norm_num) (by norm_num) (by norm_num)

end

/-- Claim C6 (code-bug evidence).  Scenario: playlist `a#b`, both files
512 samples (`a` all 1s, `b` all 2s), `B = 256`, `loopSound = false`,
every requested load completed before the next `buffer_read`.  The claim
(and spec scenario 4) expects blocks `[a₀, a₁, b₀, b₁, silence, …]`; the
code actually returns silence for blocks 0–2, `b`'s FIRST block as block
3, and silence from block 4 on: the returned numpy slice is a view with
one block of latency, `buffer_flush` on adopting `b` discards `a`'s
pending block, and the strict `<` in `buffer_add_sound` drops the final
chunk of every file, so `a` is never heard and `b₁` is lost. -/
theorem C6_playlist_blocks_actual :
    SH.run c6Env c6Start 5
      = [List.replicate 256 0, List.replicate 256 0, List.replicate 256 0,
         List.replicate 256 2, List.replicate 256 0]
    ∧ SH.run c6Env c6Start 5
      ≠ [List.replicate 256 1, List.replicate 256 1, List.replicate 256 2,
         List.replicate 256 2, List.replicate 256 0] := by
  constructor
  · set_option maxRecDepth 10000 in decide
  · set_option maxRecDepth 10000 in decide

/-- Claim C7 (code-bug evidence).  A malformed boolean config value does
log a warning, but `read_from_file` then stores `None` into
`configurationDict` instead of leaving the default: after the line
`loopSound maybe` the stored value is `None`, not the default `True`
(valid values `True`/`False` are stored as booleans). -/
theorem C7_malformed_boolean_overwrites_default :
    (readConfigLine defaultConfig "loopSound" "maybe").2 = true
    ∧ (readConfigLine defaultConfig "loopSound" "maybe").1.lookup "loopSound"
        = some ConfigValue.none
    ∧ defaultConfig.lookup "loopSound" = some (ConfigValue.bool true)
    ∧ (readConfigLine defaultConfig "loopSound" "True").1.lookup "loopSound"
        = some (ConfigValue.bool true)
    ∧ (readConfigLine defaultConfig "loopSound" "False").1.lookup "loopSound"
        = some (ConfigValue.bool false) := by
  exact ⟨rfl, rfl, rfl, rfl, rfl⟩

/-- Claim C9: the audio callback logs the clip warning for a block if and
only if the peak absolute value of the scaled result exceeds 1.0, and the
warning is non-fatal — the block handed to the sink is the scaled result
itself, unmodified by the check. -/
theorem C9_clip_warning_iff_peak (num_channels : ℕ) (loudnessFactor : ℚ)
    (result : List (ℚ × ℚ)) :
    ((callbackFinish num_channels loudnessFactor result).2 = true
      ↔ 1 < peakAbs (callbackFinish num_channels loudnessFactor result).1)
    ∧ (callbackFinish num_channels loudnessFactor result).1
        = scaleResult num_channels loudnessFactor result := by
  constructor
  · simp [callbackFinish]
  · rfl

/-- Claim C10: with zero active channels the callback skips the division
by `2·num_channels` (so no division by zero is attempted), still applies
the loudness factor, and returns the full `(block_size, 2)` block. -/
theorem C10_zero_channels_no_division (loudnessFactor : ℚ) (result : List (ℚ × ℚ))
    (block_size : ℕ) (hbs : result.length = block_size) :
    (callbackFinish 0 loudnessFactor result).1
        = result.map (fun p => (p.1 * loudnessFactor, p.2 * loudnessFactor))
    ∧ callbackReturn block_size (callbackFinish 0 loudnessFactor result).1
        = (callbackFinish 0 loudnessFactor result).1
    ∧ (callbackReturn block_size (callbackFinish 0 loudnessFactor result).1).length
        = block_size := by
  have h1 : (callbackFinish 0 loudnessFactor result).1
      = result.map (fun p => (p.1 * loudnessFactor, p.2 * loudnessFactor)) := by
    simp [callbackFinish, scaleResult]
  have h2 : (callbackFinish 0 loudnessFactor result).1.length = block_size := by
    rw [h1, List.length_map, hbs]
  refine ⟨h1, ?_, ?_⟩
  · rw [callbackReturn, List.take_of_length_le (by rw [h2])]
  · rw [callbackReturn, List.length_take, h2, min_self]

/-- Witness for C10 at a concrete input: one row `(1, 1)`, loudness 3. -/
theorem C10_zero_channels_no_division_witness :
    (callbackFinish 0 3 [((1 : ℚ), (1 : ℚ))]).1
        = [((1 : ℚ), (1 : ℚ))].map (fun p => (p.1 * 3, p.2 * 3))
    ∧ callbackReturn 1 (callbackFinish 0 3 [((1 : ℚ), (1 : ℚ))]).1
        = (callbackFinish 0 3 [((1 : ℚ), (1 : ℚ))]).1
    ∧ (callbackReturn 1 (callbackFinish 0 3 [((1 : ℚ), (1 : ℚ))]).1).length = 1 :=
  C10_zero_channels_no_division 3 [(1, 1)] 1 rfl

/-- Claim C8 (code-bug evidence).  Both short-block zero-padding branches
are broken.  Mono: a 1-D block of 255 samples with `B = 256` reaches
`np.concatenate((block, np.zeros((1, 1))), 1)`, which raises a
`ValueError` (1-D vs 2-D operands).  Stereo: a `(100, 2)` block is padded
with `np.zeros((B - block.size, 2)) = (56, 2)` rows — `block.size` counts
both channels — yielding shape `(156, 2)` instead of `(256, 2)`, so the
subsequent length-256 buffer slice assignment raises. -/
theorem C8_short_block_padding_broken :
    padMono 256 ⟨[255], List.replicate 255 0⟩
        = Except.error "all the input arrays must have the same number of dimensions"
    ∧ padStereo 256 ⟨[100, 2], List.replicate 200 0⟩
        = Except.ok ⟨[156, 2], List.replicate 200 0 ++ List.replicate 112 0⟩
    ∧ [156, 2] ≠ [256, 2] := by
  refine ⟨rfl, rfl, by decide⟩

end PyBinSim
